import Mathlib

/-!
Shallow embedding of the feature-flag dependency engine
(`repository` package: flag and audit repositories; `service` package:
flag service; `validator` package) together with theorems checking the
specification's claims about it.

The persistent state (PostgreSQL tables `flags`, `flag_dependencies`,
`audit_logs` and the id sequence) is modelled by `Store`.  Rows are kept
in insertion order; `ORDER BY` clauses are modelled by explicit sorts.
`created_at` timestamps are modelled by a counter that increases with
every insert, matching the monotone wall clock of the database.
-/

namespace FeatureFlags

/-- `entity.FlagStatus`: `enabled` / `disabled`. -/
inductive FlagStatus where
  | enabled
  | disabled
deriving DecidableEq

/-- A row of the `flags` table (`entity.Flag` without the loaded
dependency list; dependencies live in `Store.edges`). -/
structure Flag where
  id : Int
  name : String
  status : FlagStatus
deriving DecidableEq

/-- `entity.AuditAction`. -/
inductive AuditAction where
  | create
  | enable
  | disable
  | cascadeDisable
  | update
  | delete
deriving DecidableEq

/-- A row of the `audit_logs` table (`entity.AuditLog`).  `createdAt` is
the insertion-time clock value. -/
structure AuditLog where
  flagID : Int
  action : AuditAction
  actor : String
  reason : String
  createdAt : Nat
deriving DecidableEq

/-- The durable state: `flags` rows, `flag_dependencies` rows
`(flag_id, depends_on_id)` in insertion order, `audit_logs` rows in
insertion order, and the next value of the id sequence. -/
structure Store where
  flags : List Flag
  edges : List (Int × Int)
  audits : List AuditLog
  nextID : Int
deriving DecidableEq

/-- Errors of the repository and service layers (`ErrFlagNotFound`,
`ErrFlagAlreadyExists`, `ErrCircularDependency`,
`ErrMissingActiveDependencies` carried as `DependencyError` with its
name list, validation errors, and wrapped internal fetch failures). -/
inductive ServiceError where
  | validation (msg : String)
  | notFound
  | alreadyExists
  | circularDependency
  | dependencyNotFound (id : Int)
  | missingActiveDependencies (names : List String)
  | internalFailure
deriving DecidableEq

deriving instance DecidableEq for Except

/-- Result of one service call: what the function returned together with
the store it left behind (the Go code mutates the database in place; we
return it). -/
structure OpResult (α : Type) where
  result : Except ServiceError α
  store : Store
deriving DecidableEq

namespace repository

/-- `GetFlagByID` (the `SELECT ... FROM flags WHERE id = $1` part;
the dependency list the Go method also loads is obtained separately via
`GetDependencies`, exactly as the method itself does). -/
def GetFlagByID (s : Store) (id : Int) : Option Flag :=
  s.flags.find? fun f => f.id == id

/-- `SELECT depends_on_id FROM flag_dependencies WHERE flag_id = $1
ORDER BY depends_on_id` (`GetDependencies`). -/
def GetDependencies (s : Store) (flagID : Int) : List Int :=
  List.insertionSort (· ≤ ·)
    (((s.edges.filter fun e => e.1 == flagID).map fun e => e.2))

/-- `SELECT flag_id FROM flag_dependencies WHERE depends_on_id = $1
ORDER BY flag_id` (`GetDependents`). -/
def GetDependents (s : Store) (flagID : Int) : List Int :=
  List.insertionSort (· ≤ ·)
    (((s.edges.filter fun e => e.2 == flagID).map fun e => e.1))

/-- The store after `UPDATE flags SET status = $1 WHERE id = $2`. -/
def setStatus (s : Store) (id : Int) (status : FlagStatus) : Store :=
  { s with flags := s.flags.map fun f => if f.id == id then { f with status := status } else f }

/-- `UpdateFlagStatus`: the update plus the `rowsAffected == 0` check
that yields `ErrFlagNotFound`. -/
def UpdateFlagStatus (s : Store) (id : Int) (status : FlagStatus) : Except ServiceError Store :=
  if s.flags.any fun f => f.id == id then Except.ok (setStatus s id status)
  else Except.error ServiceError.notFound

/-- `AddDependency`: `INSERT ... ON CONFLICT DO NOTHING` on the primary
key `(flag_id, depends_on_id)`. -/
def AddDependency (s : Store) (flagID dependsOnID : Int) : Store :=
  if s.edges.contains (flagID, dependsOnID) then s
  else { s with edges := s.edges ++ [(flagID, dependsOnID)] }

/-- Repository `CreateFlag`: duplicate-name check, then
`INSERT INTO flags ... RETURNING id`. -/
def CreateFlag (s : Store) (name : String) (status : FlagStatus) :
    Except ServiceError (Int × Store) :=
  if s.flags.any fun f => f.name == name then Except.error ServiceError.alreadyExists
  else
    Except.ok (s.nextID,
      { s with flags := s.flags ++ [⟨s.nextID, name, status⟩], nextID := s.nextID + 1 })

/-- `CreateAuditLog`: `INSERT INTO audit_logs ...`; `created_at` gets
the current clock value. -/
def CreateAuditLog (s : Store) (flagID : Int) (action : AuditAction)
    (actor reason : String) : Store :=
  { s with audits := s.audits ++ [⟨flagID, action, actor, reason, s.audits.length⟩] }

/-- One frontier step of the recursive CTE in `HasCircularDependency`:
all `depends_on_id` successors of the current frontier. -/
def depsStep (edges : List (Int × Int)) (frontier : List Int) : List Int :=
  frontier.foldr (fun x acc => ((edges.filter fun e => e.1 == x).map fun e => e.2) ++ acc) []

/-- The node multiset produced by the recursive CTE: starting from
`frontier` (the depth-1 row set), all nodes reachable in up to `bound`
further... precisely, the union of the frontiers at depths `1..bound`
when called with the depth-1 frontier. -/
def reachLevels (edges : List (Int × Int)) : Nat → List Int → List Int
  | 0, _ => []
  | n + 1, frontier => frontier ++ reachLevels edges n (depsStep edges frontier)

/-- `HasCircularDependency`: for each proposed dependency `depID`, run
the recursive CTE, whose recursive arm is guarded by
`WHERE dp.depth < 10`, and test whether `flagID` shows up.  The CTE's
base case is the depth-1 set (direct dependencies of `depID`), and the
guard lets it grow to depth 10 at most. -/
def HasCircularDependency (s : Store) (flagID : Int) (dependencyIDs : List Int) : Bool :=
  dependencyIDs.any fun depID =>
    (reachLevels s.edges 10 (depsStep s.edges [depID])).contains flagID

/-- `SELECT ... FROM audit_logs WHERE flag_id = $1 ORDER BY created_at
DESC` (`ListAuditLogsByFlagID`).  `newerFirst` is the DESC order. -/
def newerFirst (a b : AuditLog) : Prop := b.createdAt ≤ a.createdAt

instance : DecidableRel newerFirst := fun a b => Nat.decLe b.createdAt a.createdAt

instance : IsTotal AuditLog newerFirst :=
  ⟨fun a b => (Nat.le_total b.createdAt a.createdAt).imp id id⟩

instance : IsTrans AuditLog newerFirst :=
  ⟨fun _ _ _ hab hbc => Nat.le_trans hbc hab⟩

def ListAuditLogsByFlagID (s : Store) (flagID : Int) : List AuditLog :=
  List.insertionSort newerFirst (s.audits.filter fun a => a.flagID == flagID)

end repository

/-- The cycle check as §4.2 of the specification words it: `flagID` is
reachable from some proposed prerequisite by following the depends-on
relation, with no artificial depth bound.  On a finite edge list every
reachable node is reached by a walk of at most `edges.length` steps, so
a traversal depth of `edges.length` is exhaustive. -/
def specWouldCreateCycle (s : Store) (flagID : Int) (dependencyIDs : List Int) : Bool :=
  dependencyIDs.any fun depID =>
    (repository.reachLevels s.edges s.edges.length
      (repository.depsStep s.edges [depID])).contains flagID

namespace validator

/-- `ValidateFlagID`: rejects ids `≤ 0`. -/
def ValidateFlagID (id : Int) : Option ServiceError :=
  if id ≤ 0 then some (ServiceError.validation "flag ID must be greater than 0") else none

/-- `ValidateActor`: rejects the empty string and actors over 100 bytes. -/
def ValidateActor (actor : String) : Option ServiceError :=
  if actor = "" then some (ServiceError.validation "actor is required")
  else if actor.utf8ByteSize > 100 then
    some (ServiceError.validation "actor name too long (max 100 characters)")
  else none

/-- The character set of `validateFlagName`. -/
def isFlagNameChar (c : Char) : Bool :=
  ('a' ≤ c && c ≤ 'z') || ('A' ≤ c && c ≤ 'Z') || ('0' ≤ c && c ≤ '9') || c == '_' || c == '-'

/-- First character is `_` or `-` (the Go code's
`strings.HasPrefix(name, "_") || strings.HasPrefix(name, "-")`, which
for these one-character affixes is a first-character test). -/
def startsWithMark (name : String) : Bool :=
  match name.toList.head? with
  | some c => c == '_' || c == '-'
  | none => false

/-- Last character is `_` or `-` (`strings.HasSuffix` with the same
one-character affixes). -/
def endsWithMark (name : String) : Bool :=
  match name.toList.getLast? with
  | some c => c == '_' || c == '-'
  | none => false

/-- `validateFlagName`: charset plus the no-leading/trailing `_`/`-`
rule. -/
def validFlagName (name : String) : Bool :=
  name.toList.all isFlagNameChar && !(startsWithMark name || endsWithMark name)

/-- `validator.FlagCreateRequest`. -/
structure FlagCreateRequest where
  name : String
  dependencies : List Int
deriving DecidableEq

/-- `ValidateFlagCreateRequest`: tags `required,flag_name,min=3,max=100`
on the name and `dive,gt=0` on the dependencies. -/
def ValidateFlagCreateRequest (req : FlagCreateRequest) : Option ServiceError :=
  if req.name = "" then some (ServiceError.validation "Name: This field is required")
  else if !validFlagName req.name then some (ServiceError.validation "Name: flag_name")
  else if req.name.length < 3 then some (ServiceError.validation "Name: min")
  else if req.name.length > 100 then some (ServiceError.validation "Name: max")
  else if req.dependencies.any fun d => d ≤ 0 then
    some (ServiceError.validation "Dependencies: gt")
  else none

end validator

namespace service

/-- `validateDependenciesExist` in the service: fetch every dependency
id, failing on the first missing one. -/
def validateDependenciesExist (s : Store) : List Int → Option ServiceError
  | [] => none
  | depID :: rest =>
    match repository.GetFlagByID s depID with
    | none => some (ServiceError.dependencyNotFound depID)
    | some _ => validateDependenciesExist s rest

/-- `getMissingActiveDependencies`: the names of the dependencies whose
current status is Disabled, in the order of the input id list; a failed
fetch aborts with a wrapped error. -/
def getMissingActiveDependencies (s : Store) : List Int → Except ServiceError (List String)
  | [] => Except.ok []
  | depID :: rest =>
    match repository.GetFlagByID s depID with
    | none => Except.error ServiceError.internalFailure
    | some flag =>
      match getMissingActiveDependencies s rest with
      | Except.error e => Except.error e
      | Except.ok names =>
        Except.ok (if flag.status = FlagStatus.disabled then flag.name :: names else names)

/-- Tail of `EnableFlag` after the dependency check passed: status
update (its failure is wrapped and returned), then the audit write whose
failure (`auditOk = false`) is logged and ignored. -/
def enableCommit (auditOk : Bool) (s : Store) (flagID : Int) (actor reason : String) :
    OpResult Unit :=
  match repository.UpdateFlagStatus s flagID FlagStatus.enabled with
  | Except.error _ => ⟨Except.error ServiceError.internalFailure, s⟩
  | Except.ok s1 =>
    ⟨Except.ok (),
      if auditOk then repository.CreateAuditLog s1 flagID AuditAction.enable actor reason else s1⟩

/-- `EnableFlag`.  The Go code reads `flag.Dependencies`, which
`GetFlagByID` populated from `GetDependencies`; we inline that call. -/
def EnableFlag (auditOk : Bool) (s : Store) (flagID : Int) (actor reason : String) :
    OpResult Unit :=
  match validator.ValidateFlagID flagID with
  | some e => ⟨Except.error e, s⟩
  | none =>
  match validator.ValidateActor actor with
  | some e => ⟨Except.error e, s⟩
  | none =>
  match repository.GetFlagByID s flagID with
  | none => ⟨Except.error ServiceError.notFound, s⟩
  | some flag =>
    if flag.status = FlagStatus.enabled then ⟨Except.ok (), s⟩
    else
      let deps := repository.GetDependencies s flagID
      if deps.isEmpty then enableCommit auditOk s flagID actor reason
      else
        match getMissingActiveDependencies s deps with
        | Except.error e => ⟨Except.error e, s⟩
        | Except.ok missing =>
          if missing.isEmpty then enableCommit auditOk s flagID actor reason
          else ⟨Except.error (ServiceError.missingActiveDependencies missing), s⟩

/-- The reason string of a cascade audit entry. -/
def cascadeReason (parentID : Int) : String :=
  "Automatically disabled due to dependency flag " ++ toString parentID ++ " being disabled"

/-- The `for` loop of `cascadeDisableDependents` over the dependent list
`l` of `parentID`, including the recursive call into the dependents of
every flag it flips.  The Go recursion has no structural bound, so the
embedding carries a `fuel` counter that is spent once per flipped flag;
`cascadeLoop_total` below shows that `enabledCount s` fuel always
suffices, so exhaustion (`none`) is unreachable for adequate fuel. -/
def cascadeLoop (auditOk : Bool) (fuel : Nat) (s : Store) (parentID : Int)
    (l : List Int) : Option Store :=
  match l with
  | [] => some s
  | depID :: rest =>
    match repository.GetFlagByID s depID with
    | none => cascadeLoop auditOk fuel s parentID rest
    | some depFlag =>
      if depFlag.status = FlagStatus.enabled then
        match fuel with
        | 0 => none
        | fuel' + 1 =>
          match repository.UpdateFlagStatus s depID FlagStatus.disabled with
          | Except.error _ => cascadeLoop auditOk (fuel' + 1) s parentID rest
          | Except.ok s1 =>
            let s2 := if auditOk then
                repository.CreateAuditLog s1 depID AuditAction.cascadeDisable "system"
                  (cascadeReason parentID)
              else s1
            match cascadeLoop auditOk fuel' s2 depID (repository.GetDependents s2 depID) with
            | none => none
            | some s3 => cascadeLoop auditOk (fuel' + 1) s3 parentID rest
      else cascadeLoop auditOk fuel s parentID rest
termination_by (fuel, l.length)
decreasing_by
  all_goals simp_wf
  all_goals first
    | exact Prod.Lex.right _ (by omega)
    | exact Prod.Lex.left _ _ (by omega)

/-- `cascadeDisableDependents`: fetch the direct dependents and run the
loop. -/
def cascadeDisableDependents (auditOk : Bool) (fuel : Nat) (s : Store) (flagID : Int) :
    Option Store :=
  cascadeLoop auditOk fuel s flagID (repository.GetDependents s flagID)

/-- `DisableFlag`: validations, no-op check, status update, disable
audit entry (failure ignored), then the cascade, whose own error return
is logged and ignored. -/
def DisableFlag (auditOk : Bool) (fuel : Nat) (s : Store) (flagID : Int)
    (actor reason : String) : Option (OpResult Unit) :=
  match validator.ValidateFlagID flagID with
  | some e => some ⟨Except.error e, s⟩
  | none =>
  match validator.ValidateActor actor with
  | some e => some ⟨Except.error e, s⟩
  | none =>
  match repository.GetFlagByID s flagID with
  | none => some ⟨Except.error ServiceError.notFound, s⟩
  | some flag =>
    if flag.status = FlagStatus.disabled then some ⟨Except.ok (), s⟩
    else
      match repository.UpdateFlagStatus s flagID FlagStatus.disabled with
      | Except.error _ => some ⟨Except.error ServiceError.internalFailure, s⟩
      | Except.ok s1 =>
        let s2 := if auditOk then
            repository.CreateAuditLog s1 flagID AuditAction.disable actor reason
          else s1
        match cascadeDisableDependents auditOk fuel s2 flagID with
        | none => none
        | some s3 => some ⟨Except.ok (), s3⟩

/-- Persisting part of `CreateFlag` after all validation passed. -/
def createPersist (auditOk : Bool) (s : Store) (req : validator.FlagCreateRequest)
    (actor : String) : OpResult Flag :=
  match repository.CreateFlag s req.name FlagStatus.disabled with
  | Except.error e => ⟨Except.error e, s⟩
  | Except.ok (flagID, s1) =>
    let s2 := req.dependencies.foldl (fun st d => repository.AddDependency st flagID d) s1
    let s3 := if auditOk then
        repository.CreateAuditLog s2 flagID AuditAction.create actor "Flag created"
      else s2
    ⟨Except.ok ⟨flagID, req.name, FlagStatus.disabled⟩, s3⟩

/-- `CreateFlag` of the service: request validation, actor validation,
dependency existence check, cycle check with the sentinel candidate id
`0`, then persistence. -/
def CreateFlag (auditOk : Bool) (s : Store) (req : validator.FlagCreateRequest)
    (actor : String) : OpResult Flag :=
  match validator.ValidateFlagCreateRequest req with
  | some e => ⟨Except.error e, s⟩
  | none =>
  match validator.ValidateActor actor with
  | some e => ⟨Except.error e, s⟩
  | none =>
    if req.dependencies.isEmpty then createPersist auditOk s req actor
    else
      match validateDependenciesExist s req.dependencies with
      | some e => ⟨Except.error e, s⟩
      | none =>
        if repository.HasCircularDependency s 0 req.dependencies then
          ⟨Except.error ServiceError.circularDependency, s⟩
        else createPersist auditOk s req actor

/-- `GetFlag`. -/
def GetFlag (s : Store) (flagID : Int) : OpResult Flag :=
  match validator.ValidateFlagID flagID with
  | some e => ⟨Except.error e, s⟩
  | none =>
  match repository.GetFlagByID s flagID with
  | none => ⟨Except.error ServiceError.notFound, s⟩
  | some flag => ⟨Except.ok flag, s⟩

/-- `GetFlagAuditLogs`: validation, flag existence check, then the
newest-first audit list. -/
def GetFlagAuditLogs (s : Store) (flagID : Int) : OpResult (List AuditLog) :=
  match validator.ValidateFlagID flagID with
  | some e => ⟨Except.error e, s⟩
  | none =>
  match repository.GetFlagByID s flagID with
  | none => ⟨Except.error ServiceError.notFound, s⟩
  | some _ => ⟨Except.ok (repository.ListAuditLogsByFlagID s flagID), s⟩

end service

/-- The status of the flag with id `id`, if it exists. -/
def statusOf (s : Store) (id : Int) : Option FlagStatus :=
  (repository.GetFlagByID s id).map Flag.status

/-- Number of Enabled flag rows; the fuel budget of a cascade. -/
def enabledCount (s : Store) : Nat :=
  (s.flags.filter fun f => f.status == FlagStatus.enabled).length

/-- Number of cascade-disable audit entries attributed to actor
"system" for flag `v`. -/
def cascadeAuditCount (audits : List AuditLog) (v : Int) : Nat :=
  (audits.filter fun a =>
    a.flagID == v && a.action == AuditAction.cascadeDisable && a.actor == "system").length

/-- The names of the Disabled flags among `deps`, in the order of
`deps` (skipping ids without a flag row). -/
def missingNamesOf (s : Store) (deps : List Int) : List String :=
  deps.filterMap fun d =>
    match repository.GetFlagByID s d with
    | some f => if f.status = FlagStatus.disabled then some f.name else none
    | none => none

/-- The spec's "dependency-declaration order": the order in which a
flag's dependency edges were inserted (the service's `CreateFlag`
inserts them in request order). -/
def declaredDependencies (s : Store) (flagID : Int) : List Int :=
  (s.edges.filter fun e => e.1 == flagID).map fun e => e.2

/-- `DependsReach edges a b`: flag `b` depends on flag `a` directly or
transitively; equivalently, `b` is a transitive dependent of `a`.  An
edge `(x, y)` reads "x depends on y". -/
inductive DependsReach (edges : List (Int × Int)) : Int → Int → Prop where
  | direct {a b : Int} : (b, a) ∈ edges → DependsReach edges a b
  | step {a b c : Int} : DependsReach edges a b → (c, b) ∈ edges → DependsReach edges a c

/-- Per-flag evolution step of a disable cascade: identity and name are
untouched, and a Disabled flag can never become Enabled. -/
def flagMono (f f' : Flag) : Prop :=
  f'.id = f.id ∧ f'.name = f.name ∧
    (f.status = FlagStatus.disabled → f'.status = FlagStatus.disabled)

/-- Store evolution during a disable cascade: edges and the id sequence
are untouched, flags evolve pointwise by `flagMono`, and the audit log
is only appended to. -/
structure StoreEvolve (s s' : Store) : Prop where
  edges_eq : s'.edges = s.edges
  nextID_eq : s'.nextID = s.nextID
  flags_rel : List.Forall₂ flagMono s.flags s'.flags
  audits_ext : ∃ t, s'.audits = s.audits ++ t

/-- The store after the cascade flipped `depID`: status set to Disabled
and, when the audit write succeeds (`auditOk`), the cascade audit entry
appended. -/
def cascadeStep (auditOk : Bool) (s : Store) (parentID depID : Int) : Store :=
  if auditOk then
    repository.CreateAuditLog (repository.setStatus s depID FlagStatus.disabled) depID
      AuditAction.cascadeDisable "system" (service.cascadeReason parentID)
  else repository.setStatus s depID FlagStatus.disabled

/-- A dependency chain of eleven edges: flag `i` depends on flag `i+1`
for `i = 1..11`, so flag 12 is reachable from flag 1 in eleven steps —
one more than the CTE's depth cap. -/
def chainStore : Store :=
  { flags :=
      [⟨1, "f1", FlagStatus.disabled⟩, ⟨2, "f2", FlagStatus.disabled⟩,
       ⟨3, "f3", FlagStatus.disabled⟩, ⟨4, "f4", FlagStatus.disabled⟩,
       ⟨5, "f5", FlagStatus.disabled⟩, ⟨6, "f6", FlagStatus.disabled⟩,
       ⟨7, "f7", FlagStatus.disabled⟩, ⟨8, "f8", FlagStatus.disabled⟩,
       ⟨9, "f9", FlagStatus.disabled⟩, ⟨10, "f10", FlagStatus.disabled⟩,
       ⟨11, "f11", FlagStatus.disabled⟩, ⟨12, "f12", FlagStatus.disabled⟩]
    edges := [(1, 2), (2, 3), (3, 4), (4, 5), (5, 6), (6, 7), (7, 8), (8, 9),
              (9, 10), (10, 11), (11, 12)]
    audits := []
    nextID := 13 }

/-- A flag (id 10) whose two Disabled dependencies were declared in the
order 7, 3 — the opposite of ascending id order. -/
def orderStore : Store :=
  { flags := [⟨3, "depA", FlagStatus.disabled⟩, ⟨7, "depB", FlagStatus.disabled⟩,
              ⟨10, "main", FlagStatus.disabled⟩]
    edges := [(10, 7), (10, 3)]
    audits := []
    nextID := 11 }

/-- Chain `auth <- checkout <- payment`, all Enabled. -/
def cascadeStore : Store :=
  { flags := [⟨1, "auth", FlagStatus.enabled⟩, ⟨2, "checkout", FlagStatus.enabled⟩,
              ⟨3, "payment", FlagStatus.enabled⟩]
    edges := [(2, 1), (3, 2)]
    audits := []
    nextID := 4 }

/-- A store in which the create-time cycle check fires: flag 5 has a
(dangling) dependency edge onto the sentinel id 0, so the CTE run for a
request depending on 5 finds the candidate id 0. -/
def cycleGuardStore : Store :=
  { flags := [⟨5, "dep", FlagStatus.disabled⟩]
    edges := [(5, 0)]
    audits := []
    nextID := 6 }

/-- One Enabled and one Disabled flag, no edges; an audit row exists so
"no new audit entry" is observable. -/
def noopStore : Store :=
  { flags := [⟨1, "alpha", FlagStatus.enabled⟩, ⟨2, "beta", FlagStatus.disabled⟩]
    edges := []
    audits := [⟨1, AuditAction.create, "u", "Flag created", 0⟩]
    nextID := 3 }

/-- Two Enabled flags depending on each other — the dependency invariant
is violated, exercising cascade termination on a cyclic graph. -/
def cyclicStore : Store :=
  { flags := [⟨1, "a", FlagStatus.enabled⟩, ⟨2, "b", FlagStatus.enabled⟩]
    edges := [(1, 2), (2, 1)]
    audits := []
    nextID := 3 }

/-- Flag 2 (Disabled) depends on flag 1 (Enabled). -/
def auditFailStore : Store :=
  { flags := [⟨1, "dep", FlagStatus.enabled⟩, ⟨2, "feat", FlagStatus.disabled⟩]
    edges := [(2, 1)]
    audits := []
    nextID := 3 }

/-- One flag with three audit rows, one of them for another flag id. -/
def auditLogStore : Store :=
  { flags := [⟨1, "alpha", FlagStatus.enabled⟩]
    edges := []
    audits := [⟨1, AuditAction.create, "u", "Flag created", 0⟩,
               ⟨1, AuditAction.enable, "u", "go", 1⟩,
               ⟨2, AuditAction.create, "u", "other", 2⟩]
    nextID := 2 }

/-- An arbitrary small store for the id-validation witness. -/
def idStore : Store :=
  { flags := [⟨1, "alpha", FlagStatus.enabled⟩]
    edges := []
    audits := []
    nextID := 2 }

/-- Two Disabled flags with an edge between them. -/
def monoStore : Store :=
  { flags := [⟨1, "alpha", FlagStatus.disabled⟩, ⟨2, "beta", FlagStatus.disabled⟩]
    edges := [(2, 1)]
    audits := []
    nextID := 3 }

/-! Helper lemmas about the store operations and the cascade. -/

theorem flagMono_refl (f : Flag) : flagMono f f := ⟨rfl, rfl, fun h => h⟩

theorem flagMono_trans {f g h : Flag} (h1 : flagMono f g) (h2 : flagMono g h) :
    flagMono f h :=
  ⟨h2.1.trans h1.1, h2.2.1.trans h1.2.1, fun hd => h2.2.2 (h1.2.2 hd)⟩

theorem forall₂_flagMono_trans :
    ∀ {L M N : List Flag}, List.Forall₂ flagMono L M → List.Forall₂ flagMono M N →
      List.Forall₂ flagMono L N := by
  intro L M N h1
  induction h1 generalizing N with
  | nil => intro h2; cases h2; exact List.Forall₂.nil
  | cons hab _ ih =>
    intro h2
    cases h2 with
    | cons hbc h' => exact List.Forall₂.cons (flagMono_trans hab hbc) (ih h')

theorem storeEvolve_refl (s : Store) : StoreEvolve s s :=
  ⟨rfl, rfl, List.forall₂_same.2 fun f _ => flagMono_refl f, ⟨[], by simp⟩⟩

theorem storeEvolve_trans {s t u : Store} (h1 : StoreEvolve s t) (h2 : StoreEvolve t u) :
    StoreEvolve s u := by
  refine ⟨h2.edges_eq.trans h1.edges_eq, h2.nextID_eq.trans h1.nextID_eq,
    forall₂_flagMono_trans h1.flags_rel h2.flags_rel, ?_⟩
  obtain ⟨t1, ht⟩ := h1.audits_ext
  obtain ⟨t2, hu⟩ := h2.audits_ext
  exact ⟨t1 ++ t2, by rw [hu, ht, List.append_assoc]⟩

theorem forall₂_setStatus (L : List Flag) (id : Int) :
    List.Forall₂ flagMono L
      (L.map fun f => if f.id == id then { f with status := FlagStatus.disabled } else f) := by
  induction L with
  | nil => exact List.Forall₂.nil
  | cons a t ih =>
    refine List.Forall₂.cons ?_ ih
    by_cases h : (a.id == id) = true <;> simp [h, flagMono]

theorem setStatus_evolve (s : Store) (id : Int) :
    StoreEvolve s (repository.setStatus s id FlagStatus.disabled) :=
  ⟨rfl, rfl, forall₂_setStatus s.flags id, ⟨[], by simp [repository.setStatus]⟩⟩

theorem createAuditLog_evolve (s : Store) (fid : Int) (act : AuditAction)
    (actor reason : String) :
    StoreEvolve s (repository.CreateAuditLog s fid act actor reason) :=
  ⟨rfl, rfl, List.forall₂_same.2 fun f _ => flagMono_refl f, ⟨_, rfl⟩⟩

theorem find?_flagMono {L L' : List Flag} (h : List.Forall₂ flagMono L L') (v : Int) :
    (∀ f, L.find? (fun g => g.id == v) = some f →
      ∃ f', L'.find? (fun g => g.id == v) = some f' ∧ flagMono f f') ∧
    (L.find? (fun g => g.id == v) = none → L'.find? (fun g => g.id == v) = none) := by
  induction h with
  | nil => exact ⟨fun f hf => by simp at hf, fun _ => rfl⟩
  | @cons a b L₁ L₂ hab _ ih =>
    have hids : (b.id == v) = (a.id == v) := by rw [hab.1]
    by_cases hid : (a.id == v) = true
    · refine ⟨fun f hf => ?_, fun hf => ?_⟩
      · simp only [List.find?, hid, hids] at hf ⊢
        exact ⟨b, rfl, by injection hf with hf; rw [← hf]; exact hab⟩
      · simp only [List.find?, hid, hids] at hf
        exact absurd hf (by simp)
    · rw [Bool.not_eq_true] at hid
      refine ⟨fun f hf => ?_, fun hf => ?_⟩
      · simp only [List.find?, hid, hids] at hf ⊢
        exact ih.1 f hf
      · simp only [List.find?, hid, hids] at hf ⊢
        exact ih.2 hf

theorem getFlagByID_evolve_some {s s' : Store} (h : StoreEvolve s s') {v : Int} {f : Flag}
    (hf : repository.GetFlagByID s v = some f) :
    ∃ f', repository.GetFlagByID s' v = some f' ∧ flagMono f f' :=
  (find?_flagMono h.flags_rel v).1 f hf

theorem getFlagByID_evolve_none {s s' : Store} (h : StoreEvolve s s') {v : Int}
    (hf : repository.GetFlagByID s v = none) :
    repository.GetFlagByID s' v = none :=
  (find?_flagMono h.flags_rel v).2 hf

theorem statusOf_evolve_disabled {s s' : Store} (h : StoreEvolve s s') {v : Int}
    (hd : statusOf s v = some FlagStatus.disabled) :
    statusOf s' v = some FlagStatus.disabled := by
  unfold statusOf at hd ⊢
  cases hf : repository.GetFlagByID s v with
  | none => rw [hf] at hd; simp at hd
  | some f =>
    rw [hf] at hd
    obtain ⟨f', hf', hm⟩ := getFlagByID_evolve_some h hf
    rw [hf']
    simp only [Option.map_some'] at hd ⊢
    rw [hm.2.2 (by injection hd)]

theorem statusOf_evolve_none {s s' : Store} (h : StoreEvolve s s') {v : Int}
    (hn : statusOf s v = none) : statusOf s' v = none := by
  unfold statusOf at hn ⊢
  cases hf : repository.GetFlagByID s v with
  | none => rw [getFlagByID_evolve_none h hf]; rfl
  | some f => rw [hf] at hn; simp at hn

theorem statusOf_evolve_isSome {s s' : Store} (h : StoreEvolve s s') {v : Int}
    (hs : (statusOf s v).isSome) : (statusOf s' v).isSome := by
  unfold statusOf at hs ⊢
  cases hf : repository.GetFlagByID s v with
  | none => rw [hf] at hs; simp at hs
  | some f =>
    obtain ⟨f', hf', _⟩ := getFlagByID_evolve_some h hf
    rw [hf']; rfl

theorem statusOf_evolve_enabled_rev {s s' : Store} (h : StoreEvolve s s') {v : Int}
    (he : statusOf s' v = some FlagStatus.enabled) :
    statusOf s v = some FlagStatus.enabled := by
  cases hst : statusOf s v with
  | none => rw [statusOf_evolve_none h hst] at he; exact absurd he (by simp)
  | some st =>
    cases st with
    | enabled => rfl
    | disabled =>
      rw [statusOf_evolve_disabled h hst] at he
      exact absurd (by injection he) (by simp)

theorem statusOf_ne_disabled_of_isSome {s : Store} {v : Int}
    (hs : (statusOf s v).isSome) (hne : statusOf s v ≠ some FlagStatus.disabled) :
    statusOf s v = some FlagStatus.enabled := by
  cases hst : statusOf s v with
  | none => rw [hst] at hs; exact absurd hs (by simp)
  | some st =>
    cases st with
    | enabled => rfl
    | disabled => exact absurd hst hne

theorem countE_flagMono :
    ∀ {L L' : List Flag}, List.Forall₂ flagMono L L' →
      (L'.filter fun f => f.status == FlagStatus.enabled).length ≤
      (L.filter fun f => f.status == FlagStatus.enabled).length := by
  intro L L' h
  induction h with
  | nil => exact Nat.le_refl 0
  | @cons a b L₁ L₂ hab _ ih =>
    by_cases hb : (b.status == FlagStatus.enabled) = true
    · have ha : (a.status == FlagStatus.enabled) = true := by
        rw [beq_iff_eq] at hb ⊢
        cases hsa : a.status with
        | enabled => rfl
        | disabled => rw [hab.2.2 hsa] at hb; exact absurd hb (by simp)
      simp only [List.filter_cons, hb, ha, if_pos, List.length_cons]
      omega
    · cases ha : (a.status == FlagStatus.enabled) <;>
        simp only [List.filter_cons, hb, ha, List.length_cons] <;> simp <;> omega

theorem enabledCount_evolve {s s' : Store} (h : StoreEvolve s s') :
    enabledCount s' ≤ enabledCount s :=
  countE_flagMono h.flags_rel

theorem enabledCount_pos {s : Store} {v : Int} {f : Flag}
    (hf : repository.GetFlagByID s v = some f) (he : f.status = FlagStatus.enabled) :
    1 ≤ enabledCount s := by
  unfold enabledCount
  have hmem : f ∈ s.flags := List.mem_of_find?_eq_some hf
  have : f ∈ s.flags.filter fun g => g.status == FlagStatus.enabled :=
    List.mem_filter.2 ⟨hmem, by rw [beq_iff_eq]; exact he⟩
  exact List.length_pos.2 (List.ne_nil_of_mem this)

theorem countE_set_lt :
    ∀ (L : List Flag) (v : Int) (f : Flag),
      L.find? (fun g => g.id == v) = some f → f.status = FlagStatus.enabled →
      ((L.map fun g => if g.id == v then { g with status := FlagStatus.disabled } else g).filter
          fun g => g.status == FlagStatus.enabled).length <
        (L.filter fun g => g.status == FlagStatus.enabled).length := by
  intro L
  induction L with
  | nil => intro v f hf; simp at hf
  | cons a t ih =>
    intro v f hf he
    by_cases hid : (a.id == v) = true
    · simp only [List.find?, hid] at hf
      injection hf with hf
      subst hf
      have htail := countE_flagMono (forall₂_setStatus t v)
      simp only [List.map_cons, List.filter_cons, hid, if_true, he]
      simp at htail ⊢
      omega
    · rw [Bool.not_eq_true] at hid
      simp only [List.find?, hid] at hf
      have := ih v f hf he
      cases hstat : (a.status == FlagStatus.enabled) <;>
        simp only [List.map_cons, List.filter_cons, hid, hstat, Bool.false_eq_true,
          if_false, if_true, List.length_cons] <;>
        omega

theorem enabledCount_setStatus_lt {s : Store} {v : Int} {f : Flag}
    (hf : repository.GetFlagByID s v = some f) (he : f.status = FlagStatus.enabled) :
    enabledCount (repository.setStatus s v FlagStatus.disabled) < enabledCount s :=
  countE_set_lt s.flags v f hf he

theorem updateFlagStatus_of_found {s : Store} {v : Int} {f : Flag} (st : FlagStatus)
    (h : repository.GetFlagByID s v = some f) :
    repository.UpdateFlagStatus s v st = Except.ok (repository.setStatus s v st) := by
  unfold repository.GetFlagByID at h
  unfold repository.UpdateFlagStatus
  rw [if_pos]
  have hmem := List.mem_of_find?_eq_some h
  have hp := List.find?_some h
  exact List.any_eq_true.2 ⟨f, hmem, hp⟩

theorem cascadeStep_evolve (auditOk : Bool) (s : Store) (parentID depID : Int) :
    StoreEvolve s (cascadeStep auditOk s parentID depID) := by
  unfold cascadeStep
  cases auditOk
  · simpa using setStatus_evolve s depID
  · simpa using
      storeEvolve_trans (setStatus_evolve s depID) (createAuditLog_evolve _ _ _ _ _)

theorem getFlagByID_id {s : Store} {v : Int} {f : Flag}
    (hf : repository.GetFlagByID s v = some f) : f.id = v := by
  unfold repository.GetFlagByID at hf
  have h := List.find?_some hf
  simp only [beq_iff_eq] at h
  exact h

theorem find?_setStatus (L : List Flag) (id v : Int) (st : FlagStatus) :
    (L.map fun f => if f.id == id then { f with status := st } else f).find?
        (fun f => f.id == v) =
      (L.find? fun f => f.id == v).map
        fun f => if f.id == id then { f with status := st } else f := by
  induction L with
  | nil => rfl
  | cons a t ih =>
    have hpres : ((if (a.id == id) = true then { a with status := st } else a).id == v) =
        (a.id == v) := by
      by_cases hid : (a.id == id) = true <;> simp [hid]
    by_cases h : (a.id == v) = true
    · rw [h] at hpres
      simp only [List.map_cons, List.find?, hpres, h]
      rfl
    · rw [Bool.not_eq_true] at h
      rw [h] at hpres
      simp only [List.map_cons, List.find?, hpres, h]
      exact ih

theorem getFlagByID_setStatus (s : Store) (id v : Int) (st : FlagStatus) :
    repository.GetFlagByID (repository.setStatus s id st) v =
      (repository.GetFlagByID s v).map
        fun f => if f.id == id then { f with status := st } else f := by
  unfold repository.GetFlagByID repository.setStatus
  exact find?_setStatus s.flags id v st

theorem statusOf_setStatus_self {s : Store} {v : Int} {f : Flag}
    (hf : repository.GetFlagByID s v = some f) (st : FlagStatus) :
    statusOf (repository.setStatus s v st) v = some st := by
  have hid := getFlagByID_id hf
  unfold statusOf
  rw [getFlagByID_setStatus, hf]
  simp [hid]

theorem statusOf_setStatus_ne {s : Store} {v w : Int} (hne : v ≠ w) (st : FlagStatus) :
    statusOf (repository.setStatus s w st) v = statusOf s v := by
  unfold statusOf
  rw [getFlagByID_setStatus]
  cases hf : repository.GetFlagByID s v with
  | none => rfl
  | some f =>
    have hid := getFlagByID_id hf
    have hfw : f.id ≠ w := by rw [hid]; exact hne
    simp [hfw]

theorem statusOf_createAuditLog (s : Store) (fid : Int) (act : AuditAction)
    (actor reason : String) (v : Int) :
    statusOf (repository.CreateAuditLog s fid act actor reason) v = statusOf s v := rfl

theorem statusOf_cascadeStep_self {auditOk : Bool} {s : Store} {parentID depID : Int}
    {f : Flag} (hf : repository.GetFlagByID s depID = some f) :
    statusOf (cascadeStep auditOk s parentID depID) depID = some FlagStatus.disabled := by
  unfold cascadeStep
  cases auditOk
  · simpa using statusOf_setStatus_self hf FlagStatus.disabled
  · simp only [if_true]
    rw [statusOf_createAuditLog]
    exact statusOf_setStatus_self hf FlagStatus.disabled

theorem statusOf_cascadeStep_ne {auditOk : Bool} {s : Store} {parentID depID v : Int}
    (hne : v ≠ depID) :
    statusOf (cascadeStep auditOk s parentID depID) v = statusOf s v := by
  unfold cascadeStep
  cases auditOk
  · simpa using statusOf_setStatus_ne hne FlagStatus.disabled
  · simp only [if_true]
    rw [statusOf_createAuditLog]
    exact statusOf_setStatus_ne hne FlagStatus.disabled

theorem cascadeStep_edges (auditOk : Bool) (s : Store) (parentID depID : Int) :
    (cascadeStep auditOk s parentID depID).edges = s.edges := by
  unfold cascadeStep; cases auditOk <;> rfl

theorem cascadeStep_true_audits (s : Store) (parentID depID : Int) :
    (cascadeStep true s parentID depID).audits =
      s.audits ++ [⟨depID, AuditAction.cascadeDisable, "system",
        service.cascadeReason parentID, s.audits.length⟩] := rfl

theorem cascadeStep_false_audits (s : Store) (parentID depID : Int) :
    (cascadeStep false s parentID depID).audits = s.audits := rfl

theorem cascadeAuditCount_append (A : List AuditLog) (a : AuditLog) (v : Int) :
    cascadeAuditCount (A ++ [a]) v =
      cascadeAuditCount A v +
        (if (a.flagID == v && a.action == AuditAction.cascadeDisable &&
            a.actor == "system") = true then 1 else 0) := by
  unfold cascadeAuditCount
  rw [List.filter_append, List.length_append]
  congr 1
  cases h : (a.flagID == v && a.action == AuditAction.cascadeDisable && a.actor == "system") <;>
    simp [List.filter, h]

theorem cascadeAuditCount_cascadeStep_true (s : Store) (parentID depID v : Int) :
    cascadeAuditCount (cascadeStep true s parentID depID).audits v =
      cascadeAuditCount s.audits v + (if depID = v then 1 else 0) := by
  rw [cascadeStep_true_audits, cascadeAuditCount_append]
  congr 1
  by_cases h : depID = v <;> simp [h]

theorem mem_getDependents {s : Store} {w v : Int} :
    w ∈ repository.GetDependents s v ↔ (w, v) ∈ s.edges := by
  unfold repository.GetDependents
  rw [List.mem_insertionSort]
  simp only [List.mem_map, List.mem_filter, beq_iff_eq]
  constructor
  · rintro ⟨⟨e1, e2⟩, ⟨hmem, he2⟩, he1⟩
    dsimp at he1 he2
    rw [he1, he2] at hmem
    exact hmem
  · intro h
    exact ⟨(w, v), ⟨h, rfl⟩, rfl⟩

theorem dependsReach_trans {edges : List (Int × Int)} {a b c : Int}
    (h1 : DependsReach edges a b) (h2 : DependsReach edges b c) :
    DependsReach edges a c := by
  induction h2 with
  | direct h => exact DependsReach.step h1 h
  | step _ h ih => exact DependsReach.step ih h

theorem cascadeLoop_cons_none (auditOk : Bool) (fuel : Nat) (s : Store)
    (parentID depID : Int) (rest : List Int)
    (h : repository.GetFlagByID s depID = none) :
    service.cascadeLoop auditOk fuel s parentID (depID :: rest) =
      service.cascadeLoop auditOk fuel s parentID rest := by
  cases fuel <;> simp only [service.cascadeLoop, h]

theorem cascadeLoop_cons_disabled (auditOk : Bool) (fuel : Nat) (s : Store)
    (parentID depID : Int) (rest : List Int) (val : Flag)
    (hfind : repository.GetFlagByID s depID = some val)
    (hstat : ¬ val.status = FlagStatus.enabled) :
    service.cascadeLoop auditOk fuel s parentID (depID :: rest) =
      service.cascadeLoop auditOk fuel s parentID rest := by
  cases fuel <;> simp only [service.cascadeLoop, hfind] <;> rw [if_neg hstat]

theorem cascadeLoop_cons_enabled_zero (auditOk : Bool) (s : Store)
    (parentID depID : Int) (rest : List Int) (val : Flag)
    (hfind : repository.GetFlagByID s depID = some val)
    (hstat : val.status = FlagStatus.enabled) :
    service.cascadeLoop auditOk 0 s parentID (depID :: rest) = none := by
  simp only [service.cascadeLoop, hfind]
  rw [if_pos hstat]

theorem cascadeLoop_cons_enabled_succ (auditOk : Bool) (fuel' : Nat) (s : Store)
    (parentID depID : Int) (rest : List Int) (val : Flag)
    (hfind : repository.GetFlagByID s depID = some val)
    (hstat : val.status = FlagStatus.enabled) :
    service.cascadeLoop auditOk (fuel' + 1) s parentID (depID :: rest) =
      match service.cascadeLoop auditOk fuel' (cascadeStep auditOk s parentID depID) depID
          (repository.GetDependents (cascadeStep auditOk s parentID depID) depID) with
      | none => none
      | some s3 => service.cascadeLoop auditOk (fuel' + 1) s3 parentID rest := by
  simp only [service.cascadeLoop, hfind]
  rw [if_pos hstat, updateFlagStatus_of_found FlagStatus.disabled hfind]
  unfold cascadeStep
  cases auditOk <;> rfl

theorem cascadeLoop_evolve (auditOk : Bool) :
    ∀ (fuel : Nat) (s : Store) (parentID : Int) (l : List Int) (s' : Store),
      service.cascadeLoop auditOk fuel s parentID l = some s' → StoreEvolve s s' := by
  intro fuel s parentID l
  induction fuel, s, parentID, l using service.cascadeLoop.induct auditOk with
  | case1 fuel s parentID =>
    intro s' h
    rw [service.cascadeLoop.eq_1] at h
    injection h with h
    rw [← h]
    exact storeEvolve_refl s
  | case2 fuel s parentID depID rest hnone ih =>
    intro s' h
    rw [cascadeLoop_cons_none auditOk fuel s parentID depID rest hnone] at h
    exact ih s' h
  | case3 s parentID depID rest val hfind hstat =>
    intro s' h
    rw [cascadeLoop_cons_enabled_zero auditOk s parentID depID rest val hfind hstat] at h
    exact absurd h (by simp)
  | case4 s parentID depID rest val hfind hstat fuel' e hupd ih =>
    rw [updateFlagStatus_of_found FlagStatus.disabled hfind] at hupd
    exact absurd hupd (by simp)
  | case5 s parentID depID rest val hfind hstat fuel' s1 hupd s2 hnone ih =>
    intro s' h
    have hs1 : s1 = repository.setStatus s depID FlagStatus.disabled := by
      rw [updateFlagStatus_of_found FlagStatus.disabled hfind] at hupd
      injection hupd with hupd
      exact hupd.symm
    have hs2 : s2 = cascadeStep auditOk s parentID depID := by
      show (if h : auditOk = true then
          repository.CreateAuditLog s1 depID AuditAction.cascadeDisable "system"
            (service.cascadeReason parentID)
        else s1) = cascadeStep auditOk s parentID depID
      rw [hs1]
      unfold cascadeStep
      cases auditOk <;> rfl
    rw [cascadeLoop_cons_enabled_succ auditOk fuel' s parentID depID rest val hfind hstat] at h
    rw [hs2] at hnone
    rw [hnone] at h
    exact absurd h (by simp)
  | case6 s parentID depID rest val hfind hstat fuel' s1 hupd s2 s3 hsome ih1 ih2 =>
    intro s' h
    have hs1 : s1 = repository.setStatus s depID FlagStatus.disabled := by
      rw [updateFlagStatus_of_found FlagStatus.disabled hfind] at hupd
      injection hupd with hupd
      exact hupd.symm
    have hs2 : s2 = cascadeStep auditOk s parentID depID := by
      show (if h : auditOk = true then
          repository.CreateAuditLog s1 depID AuditAction.cascadeDisable "system"
            (service.cascadeReason parentID)
        else s1) = cascadeStep auditOk s parentID depID
      rw [hs1]
      unfold cascadeStep
      cases auditOk <;> rfl
    rw [cascadeLoop_cons_enabled_succ auditOk fuel' s parentID depID rest val hfind hstat] at h
    rw [hs2] at hsome ih1
    rw [hsome] at h
    exact storeEvolve_trans (cascadeStep_evolve auditOk s parentID depID)
      (storeEvolve_trans (ih1 s3 hsome) (ih2 s' h))
  | case7 fuel s parentID depID rest val hfind hstat ih =>
    intro s' h
    rw [cascadeLoop_cons_disabled auditOk fuel s parentID depID rest val hfind hstat] at h
    exact ih s' h


theorem statusOf_eq_status {s : Store} {v : Int} {f : Flag}
    (hf : repository.GetFlagByID s v = some f) : statusOf s v = some f.status := by
  unfold statusOf; rw [hf]; rfl

theorem statusOf_eq_none {s : Store} {v : Int}
    (hf : repository.GetFlagByID s v = none) : statusOf s v = none := by
  unfold statusOf; rw [hf]; rfl

theorem flagStatus_disabled_of_ne {st : FlagStatus} (h : ¬ st = FlagStatus.enabled) :
    st = FlagStatus.disabled := by
  cases st
  · exact absurd rfl h
  · rfl

theorem enabledCount_cascadeStep (auditOk : Bool) (s : Store) (parentID depID : Int) :
    enabledCount (cascadeStep auditOk s parentID depID) =
      enabledCount (repository.setStatus s depID FlagStatus.disabled) := by
  unfold cascadeStep; cases auditOk <;> rfl

theorem cascadeLoop_total (auditOk : Bool) :
    ∀ (fuel : Nat) (s : Store) (parentID : Int) (l : List Int),
      enabledCount s ≤ fuel →
      ∃ s', service.cascadeLoop auditOk fuel s parentID l = some s' := by
  intro fuel s parentID l
  induction fuel, s, parentID, l using service.cascadeLoop.induct auditOk with
  | case1 fuel s parentID =>
    intro _
    exact ⟨s, service.cascadeLoop.eq_1 auditOk fuel s parentID⟩
  | case2 fuel s parentID depID rest hnone ih =>
    intro hev
    rw [cascadeLoop_cons_none auditOk fuel s parentID depID rest hnone]
    exact ih hev
  | case3 s parentID depID rest val hfind hstat =>
    intro hev
    have := enabledCount_pos hfind hstat
    omega
  | case4 s parentID depID rest val hfind hstat fuel' e hupd ih =>
    rw [updateFlagStatus_of_found FlagStatus.disabled hfind] at hupd
    exact absurd hupd (by simp)
  | case5 s parentID depID rest val hfind hstat fuel' s1 hupd s2 hnone ih =>
    intro hev
    have hs1 : s1 = repository.setStatus s depID FlagStatus.disabled := by
      rw [updateFlagStatus_of_found FlagStatus.disabled hfind] at hupd
      injection hupd with hupd
      exact hupd.symm
    have hs2 : s2 = cascadeStep auditOk s parentID depID := by
      show (if h : auditOk = true then
          repository.CreateAuditLog s1 depID AuditAction.cascadeDisable "system"
            (service.cascadeReason parentID)
        else s1) = cascadeStep auditOk s parentID depID
      rw [hs1]
      unfold cascadeStep
      cases auditOk <;> rfl
    rw [hs2] at hnone ih
    have hlt : enabledCount (cascadeStep auditOk s parentID depID) < enabledCount s := by
      rw [enabledCount_cascadeStep]
      exact enabledCount_setStatus_lt hfind hstat
    obtain ⟨s'', h''⟩ := ih (by omega)
    rw [h''] at hnone
    exact absurd hnone (by simp)
  | case6 s parentID depID rest val hfind hstat fuel' s1 hupd s2 s3 hsome ih1 ih2 =>
    intro hev
    have hs1 : s1 = repository.setStatus s depID FlagStatus.disabled := by
      rw [updateFlagStatus_of_found FlagStatus.disabled hfind] at hupd
      injection hupd with hupd
      exact hupd.symm
    have hs2 : s2 = cascadeStep auditOk s parentID depID := by
      show (if h : auditOk = true then
          repository.CreateAuditLog s1 depID AuditAction.cascadeDisable "system"
            (service.cascadeReason parentID)
        else s1) = cascadeStep auditOk s parentID depID
      rw [hs1]
      unfold cascadeStep
      cases auditOk <;> rfl
    rw [hs2] at hsome
    have hlt : enabledCount (cascadeStep auditOk s parentID depID) < enabledCount s := by
      rw [enabledCount_cascadeStep]
      exact enabledCount_setStatus_lt hfind hstat
    have hle3 : enabledCount s3 ≤ enabledCount (cascadeStep auditOk s parentID depID) :=
      enabledCount_evolve (cascadeLoop_evolve auditOk _ _ _ _ _ hsome)
    obtain ⟨s'', h''⟩ := ih2 (by omega)
    refine ⟨s'', ?_⟩
    rw [cascadeLoop_cons_enabled_succ auditOk fuel' s parentID depID rest val hfind hstat,
      hsome]
    exact h''
  | case7 fuel s parentID depID rest val hfind hstat ih =>
    intro hev
    rw [cascadeLoop_cons_disabled auditOk fuel s parentID depID rest val hfind hstat]
    exact ih hev

theorem cascadeLoop_processed (auditOk : Bool) :
    ∀ (fuel : Nat) (s : Store) (parentID : Int) (l : List Int) (s' : Store),
      service.cascadeLoop auditOk fuel s parentID l = some s' →
      ∀ v ∈ l, statusOf s' v ≠ some FlagStatus.enabled := by
  intro fuel s parentID l
  induction fuel, s, parentID, l using service.cascadeLoop.induct auditOk with
  | case1 fuel s parentID =>
    intro s' h v hv
    exact absurd hv (by simp)
  | case2 fuel s parentID depID rest hnone ih =>
    intro s' h v hv
    rw [cascadeLoop_cons_none auditOk fuel s parentID depID rest hnone] at h
    rcases List.mem_cons.1 hv with hv | hv
    · subst hv
      have hnone' : statusOf s' v = none :=
        statusOf_evolve_none (cascadeLoop_evolve auditOk _ _ _ _ _ h) (statusOf_eq_none hnone)
      rw [hnone']
      simp
    · exact ih s' h v hv
  | case3 s parentID depID rest val hfind hstat =>
    intro s' h
    rw [cascadeLoop_cons_enabled_zero auditOk s parentID depID rest val hfind hstat] at h
    exact absurd h (by simp)
  | case4 s parentID depID rest val hfind hstat fuel' e hupd ih =>
    rw [updateFlagStatus_of_found FlagStatus.disabled hfind] at hupd
    exact absurd hupd (by simp)
  | case5 s parentID depID rest val hfind hstat fuel' s1 hupd s2 hnone ih =>
    intro s' h
    have hs1 : s1 = repository.setStatus s depID FlagStatus.disabled := by
      rw [updateFlagStatus_of_found FlagStatus.disabled hfind] at hupd
      injection hupd with hupd
      exact hupd.symm
    have hs2 : s2 = cascadeStep auditOk s parentID depID := by
      show (if h : auditOk = true then
          repository.CreateAuditLog s1 depID AuditAction.cascadeDisable "system"
            (service.cascadeReason parentID)
        else s1) = cascadeStep auditOk s parentID depID
      rw [hs1]
      unfold cascadeStep
      cases auditOk <;> rfl
    rw [cascadeLoop_cons_enabled_succ auditOk fuel' s parentID depID rest val hfind hstat] at h
    rw [hs2] at hnone
    rw [hnone] at h
    exact absurd h (by simp)
  | case6 s parentID depID rest val hfind hstat fuel' s1 hupd s2 s3 hsome ih1 ih2 =>
    intro s' h v hv
    have hs1 : s1 = repository.setStatus s depID FlagStatus.disabled := by
      rw [updateFlagStatus_of_found FlagStatus.disabled hfind] at hupd
      injection hupd with hupd
      exact hupd.symm
    have hs2 : s2 = cascadeStep auditOk s parentID depID := by
      show (if h : auditOk = true then
          repository.CreateAuditLog s1 depID AuditAction.cascadeDisable "system"
            (service.cascadeReason parentID)
        else s1) = cascadeStep auditOk s parentID depID
      rw [hs1]
      unfold cascadeStep
      cases auditOk <;> rfl
    rw [cascadeLoop_cons_enabled_succ auditOk fuel' s parentID depID rest val hfind hstat] at h
    rw [hs2] at hsome
    rw [hsome] at h
    rcases List.mem_cons.1 hv with hv | hv
    · rw [hv]
      have hd2 : statusOf (cascadeStep auditOk s parentID depID) depID =
          some FlagStatus.disabled := statusOf_cascadeStep_self hfind
      have hd3 : statusOf s3 depID = some FlagStatus.disabled :=
        statusOf_evolve_disabled (cascadeLoop_evolve auditOk _ _ _ _ _ hsome) hd2
      have hd' : statusOf s' depID = some FlagStatus.disabled :=
        statusOf_evolve_disabled (cascadeLoop_evolve auditOk _ _ _ _ _ h) hd3
      rw [hd']
      simp
    · exact ih2 s' h v hv
  | case7 fuel s parentID depID rest val hfind hstat ih =>
    intro s' h v hv
    rw [cascadeLoop_cons_disabled auditOk fuel s parentID depID rest val hfind hstat] at h
    rcases List.mem_cons.1 hv with hv | hv
    · rw [hv]
      have hd : statusOf s depID = some FlagStatus.disabled := by
        rw [statusOf_eq_status hfind, flagStatus_disabled_of_ne hstat]
      have hd' : statusOf s' depID = some FlagStatus.disabled :=
        statusOf_evolve_disabled (cascadeLoop_evolve auditOk _ _ _ _ _ h) hd
      rw [hd']
      simp
    · exact ih s' h v hv


theorem cascadeLoop_fresh_dependents (auditOk : Bool) :
    ∀ (fuel : Nat) (s : Store) (parentID : Int) (l : List Int) (s' : Store),
      service.cascadeLoop auditOk fuel s parentID l = some s' →
      ∀ v, statusOf s v = some FlagStatus.enabled →
        statusOf s' v = some FlagStatus.disabled →
        ∀ w, (w, v) ∈ s.edges → statusOf s' w ≠ some FlagStatus.enabled := by
  intro fuel s parentID l
  induction fuel, s, parentID, l using service.cascadeLoop.induct auditOk with
  | case1 fuel s parentID =>
    intro s' h v hven hvdis w hw
    rw [service.cascadeLoop.eq_1] at h
    injection h with h
    rw [← h] at hvdis
    rw [hven] at hvdis
    exact absurd hvdis (by simp)
  | case2 fuel s parentID depID rest hnone ih =>
    intro s' h
    rw [cascadeLoop_cons_none auditOk fuel s parentID depID rest hnone] at h
    exact ih s' h
  | case3 s parentID depID rest val hfind hstat =>
    intro s' h
    rw [cascadeLoop_cons_enabled_zero auditOk s parentID depID rest val hfind hstat] at h
    exact absurd h (by simp)
  | case4 s parentID depID rest val hfind hstat fuel' e hupd ih =>
    rw [updateFlagStatus_of_found FlagStatus.disabled hfind] at hupd
    exact absurd hupd (by simp)
  | case5 s parentID depID rest val hfind hstat fuel' s1 hupd s2 hnone ih =>
    intro s' h
    have hs1 : s1 = repository.setStatus s depID FlagStatus.disabled := by
      rw [updateFlagStatus_of_found FlagStatus.disabled hfind] at hupd
      injection hupd with hupd
      exact hupd.symm
    have hs2 : s2 = cascadeStep auditOk s parentID depID := by
      show (if h : auditOk = true then
          repository.CreateAuditLog s1 depID AuditAction.cascadeDisable "system"
            (service.cascadeReason parentID)
        else s1) = cascadeStep auditOk s parentID depID
      rw [hs1]
      unfold cascadeStep
      cases auditOk <;> rfl
    rw [cascadeLoop_cons_enabled_succ auditOk fuel' s parentID depID rest val hfind hstat] at h
    rw [hs2] at hnone
    rw [hnone] at h
    exact absurd h (by simp)
  | case6 s parentID depID rest val hfind hstat fuel' s1 hupd s2 s3 hsome ih1 ih2 =>
    intro s' h v hven hvdis w hw
    have hs1 : s1 = repository.setStatus s depID FlagStatus.disabled := by
      rw [updateFlagStatus_of_found FlagStatus.disabled hfind] at hupd
      injection hupd with hupd
      exact hupd.symm
    have hs2eq : s2 = cascadeStep auditOk s parentID depID := by
      show (if h : auditOk = true then
          repository.CreateAuditLog s1 depID AuditAction.cascadeDisable "system"
            (service.cascadeReason parentID)
        else s1) = cascadeStep auditOk s parentID depID
      rw [hs1]
      unfold cascadeStep
      cases auditOk <;> rfl
    rw [cascadeLoop_cons_enabled_succ auditOk fuel' s parentID depID rest val hfind hstat] at h
    rw [hs2eq] at hsome ih1
    rw [hsome] at h
    have hev23 : StoreEvolve (cascadeStep auditOk s parentID depID) s3 :=
      cascadeLoop_evolve auditOk _ _ _ _ _ hsome
    have hev3' : StoreEvolve s3 s' := cascadeLoop_evolve auditOk _ _ _ _ _ h
    by_cases hvd : v = depID
    · rw [hvd] at hvdis
      have hwmem : w ∈ repository.GetDependents (cascadeStep auditOk s parentID depID) depID := by
        rw [mem_getDependents, cascadeStep_edges]
        rw [hvd] at hw
        exact hw
      have hw3 : statusOf s3 w ≠ some FlagStatus.enabled :=
        cascadeLoop_processed auditOk _ _ _ _ _ hsome w hwmem
      intro hw'
      exact hw3 (statusOf_evolve_enabled_rev hev3' hw')
    · have hv2 : statusOf (cascadeStep auditOk s parentID depID) v =
          some FlagStatus.enabled := by
        rw [statusOf_cascadeStep_ne hvd]
        exact hven
      by_cases h3v : statusOf s3 v = some FlagStatus.disabled
      · have hw3 : statusOf s3 w ≠ some FlagStatus.enabled := by
          refine ih1 s3 hsome v hv2 h3v w ?_
          rw [cascadeStep_edges]
          exact hw
        intro hw'
        exact hw3 (statusOf_evolve_enabled_rev hev3' hw')
      · have h3some : (statusOf s3 v).isSome :=
          statusOf_evolve_isSome hev23 (by rw [hv2]; rfl)
        have h3en : statusOf s3 v = some FlagStatus.enabled :=
          statusOf_ne_disabled_of_isSome h3some h3v
        refine ih2 s' h v h3en hvdis w ?_
        rw [hev23.edges_eq, cascadeStep_edges]
        exact hw
  | case7 fuel s parentID depID rest val hfind hstat ih =>
    intro s' h
    rw [cascadeLoop_cons_disabled auditOk fuel s parentID depID rest val hfind hstat] at h
    exact ih s' h

theorem cascadeLoop_frame (auditOk : Bool) :
    ∀ (fuel : Nat) (s : Store) (parentID : Int) (l : List Int) (s' : Store),
      service.cascadeLoop auditOk fuel s parentID l = some s' →
      ∀ v, statusOf s' v ≠ statusOf s v →
        statusOf s v = some FlagStatus.enabled ∧
        statusOf s' v = some FlagStatus.disabled ∧
        ∃ d ∈ l, d = v ∨ DependsReach s.edges d v := by
  intro fuel s parentID l
  induction fuel, s, parentID, l using service.cascadeLoop.induct auditOk with
  | case1 fuel s parentID =>
    intro s' h v hne
    rw [service.cascadeLoop.eq_1] at h
    injection h with h
    rw [← h] at hne
    exact absurd rfl hne
  | case2 fuel s parentID depID rest hnone ih =>
    intro s' h v hne
    rw [cascadeLoop_cons_none auditOk fuel s parentID depID rest hnone] at h
    obtain ⟨hen, hdis, d, hd, hr⟩ := ih s' h v hne
    exact ⟨hen, hdis, d, List.mem_cons_of_mem _ hd, hr⟩
  | case3 s parentID depID rest val hfind hstat =>
    intro s' h
    rw [cascadeLoop_cons_enabled_zero auditOk s parentID depID rest val hfind hstat] at h
    exact absurd h (by simp)
  | case4 s parentID depID rest val hfind hstat fuel' e hupd ih =>
    rw [updateFlagStatus_of_found FlagStatus.disabled hfind] at hupd
    exact absurd hupd (by simp)
  | case5 s parentID depID rest val hfind hstat fuel' s1 hupd s2 hnone ih =>
    intro s' h
    have hs1 : s1 = repository.setStatus s depID FlagStatus.disabled := by
      rw [updateFlagStatus_of_found FlagStatus.disabled hfind] at hupd
      injection hupd with hupd
      exact hupd.symm
    have hs2 : s2 = cascadeStep auditOk s parentID depID := by
      show (if h : auditOk = true then
          repository.CreateAuditLog s1 depID AuditAction.cascadeDisable "system"
            (service.cascadeReason parentID)
        else s1) = cascadeStep auditOk s parentID depID
      rw [hs1]
      unfold cascadeStep
      cases auditOk <;> rfl
    rw [cascadeLoop_cons_enabled_succ auditOk fuel' s parentID depID rest val hfind hstat] at h
    rw [hs2] at hnone
    rw [hnone] at h
    exact absurd h (by simp)
  | case6 s parentID depID rest val hfind hstat fuel' s1 hupd s2 s3 hsome ih1 ih2 =>
    intro s' h v hne
    have hs1 : s1 = repository.setStatus s depID FlagStatus.disabled := by
      rw [updateFlagStatus_of_found FlagStatus.disabled hfind] at hupd
      injection hupd with hupd
      exact hupd.symm
    have hs2eq : s2 = cascadeStep auditOk s parentID depID := by
      show (if h : auditOk = true then
          repository.CreateAuditLog s1 depID AuditAction.cascadeDisable "system"
            (service.cascadeReason parentID)
        else s1) = cascadeStep auditOk s parentID depID
      rw [hs1]
      unfold cascadeStep
      cases auditOk <;> rfl
    rw [cascadeLoop_cons_enabled_succ auditOk fuel' s parentID depID rest val hfind hstat] at h
    rw [hs2eq] at hsome ih1
    rw [hsome] at h
    have hev23 : StoreEvolve (cascadeStep auditOk s parentID depID) s3 :=
      cascadeLoop_evolve auditOk _ _ _ _ _ hsome
    have hev3' : StoreEvolve s3 s' := cascadeLoop_evolve auditOk _ _ _ _ _ h
    by_cases hvd : v = depID
    · rw [hvd]
      have hd2 : statusOf (cascadeStep auditOk s parentID depID) depID =
          some FlagStatus.disabled := statusOf_cascadeStep_self hfind
      exact ⟨by rw [statusOf_eq_status hfind, hstat],
        statusOf_evolve_disabled hev3' (statusOf_evolve_disabled hev23 hd2),
        depID, List.mem_cons_self _ _, Or.inl rfl⟩
    · have hv2 : statusOf (cascadeStep auditOk s parentID depID) v = statusOf s v :=
        statusOf_cascadeStep_ne hvd
    -- wrong indent fixed below
      by_cases h23 : statusOf s3 v = statusOf (cascadeStep auditOk s parentID depID) v
      · have hne3 : statusOf s' v ≠ statusOf s3 v := by
          rw [h23, hv2]
          exact hne
        obtain ⟨hen, hdis, d, hd, hr⟩ := ih2 s' h v hne3
        refine ⟨?_, hdis, d, List.mem_cons_of_mem _ hd, ?_⟩
        · rw [← hv2, ← h23]
          exact hen
        · rw [hev23.edges_eq, cascadeStep_edges] at hr
          exact hr
      · obtain ⟨hen2, hdis3, d, hd, hr⟩ := ih1 s3 hsome v h23
        have hreachdep : ∀ x ∈ repository.GetDependents (cascadeStep auditOk s parentID depID)
            depID, DependsReach s.edges depID x := by
          intro x hx
          rw [mem_getDependents, cascadeStep_edges] at hx
          exact DependsReach.direct hx
        refine ⟨by rw [← hv2]; exact hen2, statusOf_evolve_disabled hev3' hdis3,
          depID, List.mem_cons_self _ _, Or.inr ?_⟩
        rcases hr with hr | hr
        · rw [← hr]
          exact hreachdep d hd
        · rw [cascadeStep_edges] at hr
          exact dependsReach_trans (hreachdep d hd) hr
  | case7 fuel s parentID depID rest val hfind hstat ih =>
    intro s' h v hne
    rw [cascadeLoop_cons_disabled auditOk fuel s parentID depID rest val hfind hstat] at h
    obtain ⟨hen, hdis, d, hd, hr⟩ := ih s' h v hne
    exact ⟨hen, hdis, d, List.mem_cons_of_mem _ hd, hr⟩


theorem cascadeLoop_no_audit :
    ∀ (fuel : Nat) (s : Store) (parentID : Int) (l : List Int) (s' : Store),
      service.cascadeLoop false fuel s parentID l = some s' → s'.audits = s.audits := by
  intro fuel s parentID l
  induction fuel, s, parentID, l using service.cascadeLoop.induct false with
  | case1 fuel s parentID =>
    intro s' h
    rw [service.cascadeLoop.eq_1] at h
    injection h with h
    rw [← h]
  | case2 fuel s parentID depID rest hnone ih =>
    intro s' h
    rw [cascadeLoop_cons_none false fuel s parentID depID rest hnone] at h
    exact ih s' h
  | case3 s parentID depID rest val hfind hstat =>
    intro s' h
    rw [cascadeLoop_cons_enabled_zero false s parentID depID rest val hfind hstat] at h
    exact absurd h (by simp)
  | case4 s parentID depID rest val hfind hstat fuel' e hupd ih =>
    rw [updateFlagStatus_of_found FlagStatus.disabled hfind] at hupd
    exact absurd hupd (by simp)
  | case5 s parentID depID rest val hfind hstat fuel' s1 hupd s2 hnone ih =>
    intro s' h
    have hs1 : s1 = repository.setStatus s depID FlagStatus.disabled := by
      rw [updateFlagStatus_of_found FlagStatus.disabled hfind] at hupd
      injection hupd with hupd
      exact hupd.symm
    have hs2 : s2 = cascadeStep false s parentID depID := by
      show (if h : false = true then
          repository.CreateAuditLog s1 depID AuditAction.cascadeDisable "system"
            (service.cascadeReason parentID)
        else s1) = cascadeStep false s parentID depID
      rw [hs1]
      unfold cascadeStep
      rfl
    rw [cascadeLoop_cons_enabled_succ false fuel' s parentID depID rest val hfind hstat] at h
    rw [hs2] at hnone
    rw [hnone] at h
    exact absurd h (by simp)
  | case6 s parentID depID rest val hfind hstat fuel' s1 hupd s2 s3 hsome ih1 ih2 =>
    intro s' h
    have hs1 : s1 = repository.setStatus s depID FlagStatus.disabled := by
      rw [updateFlagStatus_of_found FlagStatus.disabled hfind] at hupd
      injection hupd with hupd
      exact hupd.symm
    have hs2eq : s2 = cascadeStep false s parentID depID := by
      show (if h : false = true then
          repository.CreateAuditLog s1 depID AuditAction.cascadeDisable "system"
            (service.cascadeReason parentID)
        else s1) = cascadeStep false s parentID depID
      rw [hs1]
      unfold cascadeStep
      rfl
    rw [cascadeLoop_cons_enabled_succ false fuel' s parentID depID rest val hfind hstat] at h
    rw [hs2eq] at hsome ih1
    rw [hsome] at h
    have h2 : (cascadeStep false s parentID depID).audits = s.audits :=
      cascadeStep_false_audits s parentID depID
    rw [ih2 s' h, ih1 s3 hsome, h2]
  | case7 fuel s parentID depID rest val hfind hstat ih =>
    intro s' h
    rw [cascadeLoop_cons_disabled false fuel s parentID depID rest val hfind hstat] at h
    exact ih s' h

theorem cascadeLoop_audit_count :
    ∀ (fuel : Nat) (s : Store) (parentID : Int) (l : List Int) (s' : Store),
      service.cascadeLoop true fuel s parentID l = some s' →
      ∀ v, cascadeAuditCount s'.audits v =
        cascadeAuditCount s.audits v +
          (if statusOf s v = some FlagStatus.enabled ∧
              statusOf s' v = some FlagStatus.disabled then 1 else 0) := by
  intro fuel s parentID l
  induction fuel, s, parentID, l using service.cascadeLoop.induct true with
  | case1 fuel s parentID =>
    intro s' h v
    rw [service.cascadeLoop.eq_1] at h
    injection h with h
    rw [← h]
    rw [if_neg]
    · omega
    · rintro ⟨h1, h2⟩
      rw [h1] at h2
      exact absurd (Option.some.inj h2) (by simp)
  | case2 fuel s parentID depID rest hnone ih =>
    intro s' h
    rw [cascadeLoop_cons_none true fuel s parentID depID rest hnone] at h
    exact ih s' h
  | case3 s parentID depID rest val hfind hstat =>
    intro s' h
    rw [cascadeLoop_cons_enabled_zero true s parentID depID rest val hfind hstat] at h
    exact absurd h (by simp)
  | case4 s parentID depID rest val hfind hstat fuel' e hupd ih =>
    rw [updateFlagStatus_of_found FlagStatus.disabled hfind] at hupd
    exact absurd hupd (by simp)
  | case5 s parentID depID rest val hfind hstat fuel' s1 hupd s2 hnone ih =>
    intro s' h
    have hs1 : s1 = repository.setStatus s depID FlagStatus.disabled := by
      rw [updateFlagStatus_of_found FlagStatus.disabled hfind] at hupd
      injection hupd with hupd
      exact hupd.symm
    have hs2 : s2 = cascadeStep true s parentID depID := by
      show (if h : true = true then
          repository.CreateAuditLog s1 depID AuditAction.cascadeDisable "system"
            (service.cascadeReason parentID)
        else s1) = cascadeStep true s parentID depID
      rw [hs1]
      unfold cascadeStep
      rfl
    rw [cascadeLoop_cons_enabled_succ true fuel' s parentID depID rest val hfind hstat] at h
    rw [hs2] at hnone
    rw [hnone] at h
    exact absurd h (by simp)
  | case6 s parentID depID rest val hfind hstat fuel' s1 hupd s2 s3 hsome ih1 ih2 =>
    intro s' h v
    have hs1 : s1 = repository.setStatus s depID FlagStatus.disabled := by
      rw [updateFlagStatus_of_found FlagStatus.disabled hfind] at hupd
      injection hupd with hupd
      exact hupd.symm
    have hs2eq : s2 = cascadeStep true s parentID depID := by
      show (if h : true = true then
          repository.CreateAuditLog s1 depID AuditAction.cascadeDisable "system"
            (service.cascadeReason parentID)
        else s1) = cascadeStep true s parentID depID
      rw [hs1]
      unfold cascadeStep
      rfl
    rw [cascadeLoop_cons_enabled_succ true fuel' s parentID depID rest val hfind hstat] at h
    rw [hs2eq] at hsome ih1
    rw [hsome] at h
    have hev23 : StoreEvolve (cascadeStep true s parentID depID) s3 :=
      cascadeLoop_evolve true _ _ _ _ _ hsome
    have hev3' : StoreEvolve s3 s' := cascadeLoop_evolve true _ _ _ _ _ h
    have hcnt2 : cascadeAuditCount (cascadeStep true s parentID depID).audits v =
        cascadeAuditCount s.audits v + (if depID = v then 1 else 0) :=
      cascadeAuditCount_cascadeStep_true s parentID depID v
    have hcnt3 := ih1 s3 hsome v
    have hcnt' := ih2 s' h v
    by_cases hvd : depID = v
    · have hven : statusOf s v = some FlagStatus.enabled := by
        rw [← hvd, statusOf_eq_status hfind, hstat]
      have hv2 : statusOf (cascadeStep true s parentID depID) v =
          some FlagStatus.disabled := by
        rw [← hvd]
        exact statusOf_cascadeStep_self hfind
      have hv3 : statusOf s3 v = some FlagStatus.disabled :=
        statusOf_evolve_disabled hev23 hv2
      have hv' : statusOf s' v = some FlagStatus.disabled :=
        statusOf_evolve_disabled hev3' hv3
      have hneg2 : ¬(statusOf (cascadeStep true s parentID depID) v = some FlagStatus.enabled ∧
          statusOf s3 v = some FlagStatus.disabled) := by
        rintro ⟨h1, _⟩
        rw [hv2] at h1
        exact absurd (Option.some.inj h1) (by simp)
      have hneg3 : ¬(statusOf s3 v = some FlagStatus.enabled ∧
          statusOf s' v = some FlagStatus.disabled) := by
        rintro ⟨h1, _⟩
        rw [hv3] at h1
        exact absurd (Option.some.inj h1) (by simp)
      rw [if_pos ⟨hven, hv'⟩]
      rw [if_neg hneg2] at hcnt3
      rw [if_neg hneg3] at hcnt'
      rw [if_pos hvd] at hcnt2
      omega
    · have hvdne : v ≠ depID := fun hh => hvd hh.symm
      have hv2 : statusOf (cascadeStep true s parentID depID) v = statusOf s v :=
        statusOf_cascadeStep_ne hvdne
      rw [if_neg hvd] at hcnt2
      by_cases hsv : statusOf s v = some FlagStatus.enabled
      · by_cases hs3v : statusOf s3 v = some FlagStatus.disabled
        · have hneg3 : ¬(statusOf s3 v = some FlagStatus.enabled ∧
              statusOf s' v = some FlagStatus.disabled) := by
            rintro ⟨h1, _⟩
            rw [hs3v] at h1
            exact absurd (Option.some.inj h1) (by simp)
          rw [if_pos ⟨by rw [hv2]; exact hsv, hs3v⟩] at hcnt3
          rw [if_neg hneg3] at hcnt'
          have hv' : statusOf s' v = some FlagStatus.disabled :=
            statusOf_evolve_disabled hev3' hs3v
          rw [if_pos ⟨hsv, hv'⟩]
          omega
        · have h3some : (statusOf s3 v).isSome :=
            statusOf_evolve_isSome hev23 (by rw [hv2, hsv]; rfl)
          have h3en : statusOf s3 v = some FlagStatus.enabled :=
            statusOf_ne_disabled_of_isSome h3some hs3v
          rw [if_neg (by rintro ⟨_, h2⟩; exact hs3v h2)] at hcnt3
          by_cases hd' : statusOf s' v = some FlagStatus.disabled
          · rw [if_pos ⟨h3en, hd'⟩] at hcnt'
            rw [if_pos ⟨hsv, hd'⟩]
            omega
          · rw [if_neg (by rintro ⟨_, h2⟩; exact hd' h2)] at hcnt'
            rw [if_neg (by rintro ⟨_, h2⟩; exact hd' h2)]
            omega
      · have hnegA : ¬(statusOf (cascadeStep true s parentID depID) v =
              some FlagStatus.enabled ∧ statusOf s3 v = some FlagStatus.disabled) := by
          rintro ⟨h1, _⟩
          rw [hv2] at h1
          exact hsv h1
        have hnegB : ¬(statusOf s3 v = some FlagStatus.enabled ∧
            statusOf s' v = some FlagStatus.disabled) := by
          rintro ⟨h1, _⟩
          exact hsv (statusOf_evolve_enabled_rev (storeEvolve_trans
            (cascadeStep_evolve true s parentID depID) hev23) h1)
        have hnegC : ¬(statusOf s v = some FlagStatus.enabled ∧
            statusOf s' v = some FlagStatus.disabled) := by
          rintro ⟨h1, _⟩
          exact hsv h1
        rw [if_neg hnegA] at hcnt3
        rw [if_neg hnegB] at hcnt'
        rw [if_neg hnegC]
        omega
  | case7 fuel s parentID depID rest val hfind hstat ih =>
    intro s' h
    rw [cascadeLoop_cons_disabled true fuel s parentID depID rest val hfind hstat] at h
    exact ih s' h

/-- C1: the cycle check is NOT the unbounded reachability test the spec
demands.  On an eleven-edge dependency chain, `HasCircularDependency`
answers `false` for candidate flag 12 and proposed prerequisite 1, yet
flag 12 is reachable from flag 1 along the depends-on relation (the
spec-worded unbounded traversal finds it): the CTE's `depth < 10` cap
silently classifies the deep cycle as cycle-free. -/
theorem hasCircularDependency_depth_capped_misses_deep_cycle :
    repository.HasCircularDependency chainStore 12 [1] = false ∧
    specWouldCreateCycle chainStore 12 [1] = true := by
  constructor <;> rfl

/-- C9: for a nonpositive flag id, `EnableFlag`, `DisableFlag`,
`GetFlag` and `GetFlagAuditLogs` all return the flag-id validation
error and leave the store exactly as it was, regardless of the store's
contents, of audit-write health and of the cascade fuel. -/
theorem nonpositive_id_rejected_before_store_access
    (s : Store) (fid : Int) (hid : fid ≤ 0)
    (auditOk : Bool) (fuel : Nat) (actor reason : String) :
    service.EnableFlag auditOk s fid actor reason =
      ⟨Except.error (ServiceError.validation "flag ID must be greater than 0"), s⟩ ∧
    service.DisableFlag auditOk fuel s fid actor reason =
      some ⟨Except.error (ServiceError.validation "flag ID must be greater than 0"), s⟩ ∧
    service.GetFlag s fid =
      ⟨Except.error (ServiceError.validation "flag ID must be greater than 0"), s⟩ ∧
    service.GetFlagAuditLogs s fid =
      ⟨Except.error (ServiceError.validation "flag ID must be greater than 0"), s⟩ := by
  refine ⟨?_, ?_, ?_, ?_⟩ <;>
    simp [service.EnableFlag, service.DisableFlag, service.GetFlag,
      service.GetFlagAuditLogs, validator.ValidateFlagID, hid]

/-- Witness for C9 at `fid = 0` on a concrete store. -/
theorem nonpositive_id_rejected_witness :
    service.EnableFlag true idStore 0 "u" "why" =
      ⟨Except.error (ServiceError.validation "flag ID must be greater than 0"), idStore⟩ ∧
    service.DisableFlag true 5 idStore 0 "u" "why" =
      some ⟨Except.error (ServiceError.validation "flag ID must be greater than 0"), idStore⟩ ∧
    service.GetFlag idStore 0 =
      ⟨Except.error (ServiceError.validation "flag ID must be greater than 0"), idStore⟩ ∧
    service.GetFlagAuditLogs idStore 0 =
      ⟨Except.error (ServiceError.validation "flag ID must be greater than 0"), idStore⟩ :=
  nonpositive_id_rejected_before_store_access idStore 0 (by decide) true 5 "u" "why"

/-- C5: enabling an already-Enabled flag and disabling an
already-Disabled flag are no-ops returning success: the resulting store
is the old one — no status change, no cascade effect, no new audit
entry. -/
theorem noop_toggle_leaves_store_unchanged
    (auditOk : Bool) (fuel : Nat) (s : Store) (fid : Int) (actor reason : String)
    (flag : Flag)
    (hid : validator.ValidateFlagID fid = none)
    (hact : validator.ValidateActor actor = none)
    (hfind : repository.GetFlagByID s fid = some flag) :
    (flag.status = FlagStatus.enabled →
      service.EnableFlag auditOk s fid actor reason = ⟨Except.ok (), s⟩) ∧
    (flag.status = FlagStatus.disabled →
      service.DisableFlag auditOk fuel s fid actor reason = some ⟨Except.ok (), s⟩) := by
  constructor <;> intro hst <;>
    simp [service.EnableFlag, service.DisableFlag, hid, hact, hfind, hst]

/-- Witness for C5: re-enabling Enabled flag 1 and re-disabling
Disabled flag 2 of a concrete store. -/
theorem noop_toggle_witness :
    (service.EnableFlag true noopStore 1 "u" "again" = ⟨Except.ok (), noopStore⟩) ∧
    (service.DisableFlag true 7 noopStore 2 "u" "again" = some ⟨Except.ok (), noopStore⟩) :=
  ⟨(noop_toggle_leaves_store_unchanged true 7 noopStore 1 "u" "again"
      ⟨1, "alpha", FlagStatus.enabled⟩ (by decide) (by decide) (by rfl)).1 rfl,
   (noop_toggle_leaves_store_unchanged true 7 noopStore 2 "u" "again"
      ⟨2, "beta", FlagStatus.disabled⟩ (by decide) (by decide) (by rfl)).2 rfl⟩

/-- C4: whenever the cycle check reports that the proposed dependency
set of a create request would close a cycle (and the earlier
validations pass), `CreateFlag` fails with the circular-dependency
error and returns the store untouched: no flag row and no dependency
edge is persisted. -/
theorem create_cycle_rejected_store_unchanged
    (auditOk : Bool) (s : Store) (req : validator.FlagCreateRequest) (actor : String)
    (hreq : validator.ValidateFlagCreateRequest req = none)
    (hact : validator.ValidateActor actor = none)
    (hexist : service.validateDependenciesExist s req.dependencies = none)
    (hcirc : repository.HasCircularDependency s 0 req.dependencies = true) :
    service.CreateFlag auditOk s req actor =
      ⟨Except.error ServiceError.circularDependency, s⟩ := by
  have hne : req.dependencies.isEmpty = false := by
    cases hdeps : req.dependencies with
    | nil => rw [hdeps] at hcirc; simp [repository.HasCircularDependency] at hcirc
    | cons a t => simp
  simp [service.CreateFlag, hreq, hact, hexist, hcirc, hne]

/-- Witness for C4 on a concrete store whose cycle check fires. -/
theorem create_cycle_rejected_witness :
    service.CreateFlag true cycleGuardStore ⟨"abc", [5]⟩ "me" =
      ⟨Except.error ServiceError.circularDependency, cycleGuardStore⟩ :=
  create_cycle_rejected_store_unchanged true cycleGuardStore ⟨"abc", [5]⟩ "me"
    (by decide) (by decide) (by decide) (by decide)

/-- C2 counterexample: flag 10 declared its Disabled dependencies in
the order 7 ("depB"), 3 ("depA").  `EnableFlag` reports the missing
names as `["depA", "depB"]` — ascending id order, produced by the
store's `ORDER BY depends_on_id` — which differs from the
dependency-declaration order `["depB", "depA"]` the claim requires. -/
theorem missing_names_not_declaration_order :
    (service.EnableFlag true orderStore 10 "u" "why").result =
      Except.error (ServiceError.missingActiveDependencies ["depA", "depB"]) ∧
    missingNamesOf orderStore (declaredDependencies orderStore 10) = ["depB", "depA"] ∧
    (["depA", "depB"] : List String) ≠ ["depB", "depA"] := by
  refine ⟨by rfl, by rfl, by decide⟩

/-- C8: for a valid id, `GetFlagAuditLogs` fails with the not-found
error when no flag row exists, and otherwise returns exactly the audit
entries recorded for that flag, sorted newest first (descending
`created_at`), with the store untouched. -/
theorem audit_logs_newest_first
    (s : Store) (fid : Int) (hid : validator.ValidateFlagID fid = none) :
    (repository.GetFlagByID s fid = none →
      service.GetFlagAuditLogs s fid = ⟨Except.error ServiceError.notFound, s⟩) ∧
    (∀ flag, repository.GetFlagByID s fid = some flag →
      ∃ logs, service.GetFlagAuditLogs s fid = ⟨Except.ok logs, s⟩ ∧
        List.Pairwise repository.newerFirst logs ∧
        logs.Perm (s.audits.filter fun a => a.flagID == fid)) := by
  constructor
  · intro h; simp [service.GetFlagAuditLogs, hid, h]
  · intro flag h
    refine ⟨repository.ListAuditLogsByFlagID s fid,
      by simp [service.GetFlagAuditLogs, hid, h], ?_, ?_⟩
    · exact List.sorted_insertionSort repository.newerFirst _
    · exact List.perm_insertionSort repository.newerFirst _

/-- Witness for C8 on a concrete store: existing flag 1 with two of
three audit rows belonging to it. -/
theorem audit_logs_newest_first_witness :
    (repository.GetFlagByID auditLogStore 1 = none →
      service.GetFlagAuditLogs auditLogStore 1 =
        ⟨Except.error ServiceError.notFound, auditLogStore⟩) ∧
    (∀ flag, repository.GetFlagByID auditLogStore 1 = some flag →
      ∃ logs, service.GetFlagAuditLogs auditLogStore 1 = ⟨Except.ok logs, auditLogStore⟩ ∧
        List.Pairwise repository.newerFirst logs ∧
        logs.Perm (auditLogStore.audits.filter fun a => a.flagID == 1)) :=
  audit_logs_newest_first auditLogStore 1 (by decide)

theorem statusOf_disabled_of_isSome_ne {s : Store} {v : Int}
    (hs : (statusOf s v).isSome) (h : statusOf s v ≠ some FlagStatus.enabled) :
    statusOf s v = some FlagStatus.disabled := by
  cases hst : statusOf s v with
  | none => rw [hst] at hs; exact absurd hs (by simp)
  | some st =>
    cases st with
    | enabled => exact absurd hst h
    | disabled => rfl

/-- C10: `DisableFlag` never enables a flag: whatever run it performs
(including all cascade work), every flag whose status was Disabled
before the call is still Disabled in the resulting store — the set of
Enabled flags can only shrink. -/
theorem disable_never_enables
    (auditOk : Bool) (fuel : Nat) (s : Store) (fid : Int) (actor reason : String)
    (res : OpResult Unit)
    (hres : service.DisableFlag auditOk fuel s fid actor reason = some res) :
    ∀ v, statusOf s v = some FlagStatus.disabled →
      statusOf res.store v = some FlagStatus.disabled := by
  intro v hv
  unfold service.DisableFlag at hres
  cases hid : validator.ValidateFlagID fid with
  | some e =>
    simp only [hid] at hres
    injection hres with hres
    rw [← hres]
    exact hv
  | none =>
  simp only [hid] at hres
  cases hact : validator.ValidateActor actor with
  | some e =>
    simp only [hact] at hres
    injection hres with hres
    rw [← hres]
    exact hv
  | none =>
  simp only [hact] at hres
  cases hfind : repository.GetFlagByID s fid with
  | none =>
    simp only [hfind] at hres
    injection hres with hres
    rw [← hres]
    exact hv
  | some flag =>
  simp only [hfind] at hres
  by_cases hst : flag.status = FlagStatus.disabled
  · rw [if_pos hst] at hres
    injection hres with hres
    rw [← hres]
    exact hv
  · rw [if_neg hst, updateFlagStatus_of_found FlagStatus.disabled hfind] at hres
    simp only [] at hres
    have hevolve2 : StoreEvolve s (if auditOk then
        repository.CreateAuditLog (repository.setStatus s fid FlagStatus.disabled) fid
          AuditAction.disable actor reason
      else repository.setStatus s fid FlagStatus.disabled) := by
      cases auditOk
      · simpa using setStatus_evolve s fid
      · simpa using storeEvolve_trans (setStatus_evolve s fid)
          (createAuditLog_evolve _ _ _ _ _)
    cases hcas : service.cascadeDisableDependents auditOk fuel (if auditOk then
        repository.CreateAuditLog (repository.setStatus s fid FlagStatus.disabled) fid
          AuditAction.disable actor reason
      else repository.setStatus s fid FlagStatus.disabled) fid with
    | none =>
      rw [hcas] at hres
      exact absurd hres (by simp)
    | some s3 =>
      rw [hcas] at hres
      injection hres with hres
      rw [← hres]
      unfold service.cascadeDisableDependents at hcas
      have hevolve3 := cascadeLoop_evolve auditOk _ _ _ _ _ hcas
      exact statusOf_evolve_disabled (storeEvolve_trans hevolve2 hevolve3) hv


/-- C6: on every finite store — including one whose dependency graph
contains a cycle through invariant violation — the cascade completes
once the fuel covers the number of Enabled flags (the Go recursion has
no bound; each recursive call is preceded by flipping an Enabled flag,
which is the termination measure).  A dependent already visited (it was
flipped to Disabled, the implicit visited-marker) is skipped: it stays
Disabled and gets no further cascade audit entry, and no flag ever
receives more than one new cascade audit entry per cascade. -/
theorem cascade_terminates_and_skips_visited
    (auditOk : Bool) (fuel : Nat) (s : Store) (flagID : Int)
    (hfuel : enabledCount s ≤ fuel) :
    ∃ s', service.cascadeDisableDependents auditOk fuel s flagID = some s' ∧
      (∀ v, statusOf s v = some FlagStatus.disabled →
        statusOf s' v = some FlagStatus.disabled ∧
          cascadeAuditCount s'.audits v = cascadeAuditCount s.audits v) ∧
      (∀ v, cascadeAuditCount s'.audits v ≤ cascadeAuditCount s.audits v + 1) := by
  obtain ⟨s', hs'⟩ :=
    cascadeLoop_total auditOk fuel s flagID (repository.GetDependents s flagID) hfuel
  have hevolve := cascadeLoop_evolve auditOk _ _ _ _ _ hs'
  refine ⟨s', by unfold service.cascadeDisableDependents; exact hs', ?_⟩
  cases auditOk
  · have haud := cascadeLoop_no_audit _ _ _ _ _ hs'
    exact ⟨fun v hv => ⟨statusOf_evolve_disabled hevolve hv, by rw [haud]⟩,
      fun v => by rw [haud]; omega⟩
  · have hcnt := cascadeLoop_audit_count _ _ _ _ _ hs'
    refine ⟨fun v hv => ⟨statusOf_evolve_disabled hevolve hv, ?_⟩, fun v => ?_⟩
    · rw [hcnt v, if_neg]
      · omega
      · rintro ⟨h1, _⟩
        rw [hv] at h1
        exact absurd (Option.some.inj h1) (by simp)
    · rw [hcnt v]
      by_cases hco : statusOf s v = some FlagStatus.enabled ∧
          statusOf s' v = some FlagStatus.disabled
      · rw [if_pos hco]
      · rw [if_neg hco]
        omega

/-- C7: when the status write succeeds, a failing audit write
(`auditOk` arbitrary, in particular `false`) does not fail the
operation: `EnableFlag` still returns success with the flag Enabled,
and `DisableFlag` still returns success with the flag Disabled. -/
theorem audit_write_failure_nonfatal
    (auditOk : Bool) (fuel : Nat) (s : Store) (fid : Int) (actor reason : String)
    (flag : Flag)
    (hid : validator.ValidateFlagID fid = none)
    (hact : validator.ValidateActor actor = none)
    (hfind : repository.GetFlagByID s fid = some flag) :
    (flag.status = FlagStatus.disabled →
      service.getMissingActiveDependencies s (repository.GetDependencies s fid) =
        Except.ok [] →
      (service.EnableFlag auditOk s fid actor reason).result = Except.ok () ∧
        statusOf (service.EnableFlag auditOk s fid actor reason).store fid =
          some FlagStatus.enabled) ∧
    (flag.status = FlagStatus.enabled → enabledCount s ≤ fuel →
      ∃ res, service.DisableFlag auditOk fuel s fid actor reason = some res ∧
        res.result = Except.ok () ∧
        statusOf res.store fid = some FlagStatus.disabled) := by
  constructor
  · intro hst hmiss
    unfold service.EnableFlag
    simp only [hid, hact, hfind]
    rw [if_neg (by rw [hst]; simp)]
    by_cases hdeps : (repository.GetDependencies s fid).isEmpty
    · rw [if_pos hdeps]
      unfold service.enableCommit
      rw [updateFlagStatus_of_found FlagStatus.enabled hfind]
      constructor
      · rfl
      · show statusOf (if auditOk then _ else _) fid = some FlagStatus.enabled
        cases auditOk
        · simpa using statusOf_setStatus_self hfind FlagStatus.enabled
        · simp only [if_true]
          rw [statusOf_createAuditLog]
          exact statusOf_setStatus_self hfind FlagStatus.enabled
    · rw [if_neg hdeps, hmiss]
      simp only [List.isEmpty_nil, if_true]
      unfold service.enableCommit
      rw [updateFlagStatus_of_found FlagStatus.enabled hfind]
      constructor
      · rfl
      · show statusOf (if auditOk then _ else _) fid = some FlagStatus.enabled
        cases auditOk
        · simpa using statusOf_setStatus_self hfind FlagStatus.enabled
        · simp only [if_true]
          rw [statusOf_createAuditLog]
          exact statusOf_setStatus_self hfind FlagStatus.enabled
  · intro hst hfuel
    have hs2ev : enabledCount (if auditOk then
        repository.CreateAuditLog (repository.setStatus s fid FlagStatus.disabled) fid
          AuditAction.disable actor reason
      else repository.setStatus s fid FlagStatus.disabled) < enabledCount s := by
      have hlt := enabledCount_setStatus_lt hfind hst
      cases auditOk
      · simpa using hlt
      · simp only [if_true]
        show enabledCount (repository.CreateAuditLog _ _ _ _ _) < _
        exact hlt
    obtain ⟨s3, hcas⟩ := cascadeLoop_total auditOk fuel
      (if auditOk then
        repository.CreateAuditLog (repository.setStatus s fid FlagStatus.disabled) fid
          AuditAction.disable actor reason
      else repository.setStatus s fid FlagStatus.disabled) fid
      (repository.GetDependents
        (if auditOk then
          repository.CreateAuditLog (repository.setStatus s fid FlagStatus.disabled) fid
            AuditAction.disable actor reason
        else repository.setStatus s fid FlagStatus.disabled) fid) (by omega)
    refine ⟨⟨Except.ok (), s3⟩, ?_, rfl, ?_⟩
    · unfold service.DisableFlag
      simp only [hid, hact, hfind]
      rw [if_neg (by rw [hst]; simp), updateFlagStatus_of_found FlagStatus.disabled hfind]
      simp only []
      unfold service.cascadeDisableDependents
      rw [hcas]
    · have hd2 : statusOf (if auditOk then
          repository.CreateAuditLog (repository.setStatus s fid FlagStatus.disabled) fid
            AuditAction.disable actor reason
        else repository.setStatus s fid FlagStatus.disabled) fid =
          some FlagStatus.disabled := by
        cases auditOk
        · simpa using statusOf_setStatus_self hfind FlagStatus.disabled
        · simp only [if_true]
          rw [statusOf_createAuditLog]
          exact statusOf_setStatus_self hfind FlagStatus.disabled
      exact statusOf_evolve_disabled (cascadeLoop_evolve auditOk _ _ _ _ _ hcas) hd2


/-- C3: on an acyclic-at-the-root graph, disabling an Enabled flag all
of whose transitive dependents are Enabled disables exactly those
dependents: every transitive dependent ends Disabled with exactly one
new cascade-disable audit entry attributed to actor "system" (one even
when reachable by several paths), every other flag keeps its status and
gains no cascade audit entry, and the root itself is Disabled with no
cascade entry (its entry is the ordinary disable audit). -/
theorem disable_cascades_each_dependent_once
    (fuel : Nat) (s : Store) (root : Int) (actor reason : String) (rootFlag : Flag)
    (hid : validator.ValidateFlagID root = none)
    (hact : validator.ValidateActor actor = none)
    (hfind : repository.GetFlagByID s root = some rootFlag)
    (hen : rootFlag.status = FlagStatus.enabled)
    (hdeps : ∀ v, DependsReach s.edges root v → statusOf s v = some FlagStatus.enabled)
    (hacyc : ¬ DependsReach s.edges root root)
    (hfuel : enabledCount s ≤ fuel) :
    ∃ s', service.DisableFlag true fuel s root actor reason = some ⟨Except.ok (), s'⟩ ∧
      (∀ v, DependsReach s.edges root v →
        statusOf s' v = some FlagStatus.disabled ∧
        cascadeAuditCount s'.audits v = cascadeAuditCount s.audits v + 1) ∧
      (∀ v, ¬ DependsReach s.edges root v → v ≠ root →
        statusOf s' v = statusOf s v ∧
        cascadeAuditCount s'.audits v = cascadeAuditCount s.audits v) ∧
      statusOf s' root = some FlagStatus.disabled ∧
      cascadeAuditCount s'.audits root = cascadeAuditCount s.audits root := by
  have hstne : ¬ rootFlag.status = FlagStatus.disabled := by rw [hen]; simp
  -- the state after the root status write and the root "disable" audit entry
  have hedges2 : (repository.CreateAuditLog (repository.setStatus s root FlagStatus.disabled)
      root AuditAction.disable actor reason).edges = s.edges := rfl
  have hs2root : statusOf (repository.CreateAuditLog
      (repository.setStatus s root FlagStatus.disabled) root AuditAction.disable actor reason)
      root = some FlagStatus.disabled := by
    rw [statusOf_createAuditLog]
    exact statusOf_setStatus_self hfind FlagStatus.disabled
  have hs2ne : ∀ v, v ≠ root → statusOf (repository.CreateAuditLog
      (repository.setStatus s root FlagStatus.disabled) root AuditAction.disable actor reason)
      v = statusOf s v := by
    intro v hv
    rw [statusOf_createAuditLog]
    exact statusOf_setStatus_ne hv FlagStatus.disabled
  have hcnt2 : ∀ v, cascadeAuditCount (repository.CreateAuditLog
      (repository.setStatus s root FlagStatus.disabled) root AuditAction.disable actor
      reason).audits v = cascadeAuditCount s.audits v := by
    intro v
    rw [show (repository.CreateAuditLog (repository.setStatus s root FlagStatus.disabled)
        root AuditAction.disable actor reason).audits =
      s.audits ++ [⟨root, AuditAction.disable, actor, reason, s.audits.length⟩] from rfl]
    rw [cascadeAuditCount_append]
    simp
  have hlt : enabledCount (repository.CreateAuditLog
      (repository.setStatus s root FlagStatus.disabled) root AuditAction.disable actor reason) <
      enabledCount s := by
    show enabledCount (repository.setStatus s root FlagStatus.disabled) < enabledCount s
    exact enabledCount_setStatus_lt hfind hen
  obtain ⟨s3, hcas⟩ := cascadeLoop_total true fuel
    (repository.CreateAuditLog (repository.setStatus s root FlagStatus.disabled) root
      AuditAction.disable actor reason) root
    (repository.GetDependents
      (repository.CreateAuditLog (repository.setStatus s root FlagStatus.disabled) root
        AuditAction.disable actor reason) root) (by omega)
  have hev23 := cascadeLoop_evolve true _ _ _ _ _ hcas
  have hrun : service.DisableFlag true fuel s root actor reason = some ⟨Except.ok (), s3⟩ := by
    unfold service.DisableFlag
    simp only [hid, hact, hfind]
    rw [if_neg hstne, updateFlagStatus_of_found FlagStatus.disabled hfind]
    simp only [if_true]
    unfold service.cascadeDisableDependents
    rw [hcas]
  -- every transitive dependent ends Disabled
  have hdep_dis : ∀ v, DependsReach s.edges root v →
      statusOf s3 v = some FlagStatus.disabled := by
    intro v hv
    induction hv with
    | @direct b hb =>
      have hb_en : statusOf s b = some FlagStatus.enabled := hdeps b (DependsReach.direct hb)
      have hbne : b ≠ root := by
        intro h
        subst h
        exact hacyc (DependsReach.direct hb)
      have hb2 : statusOf (repository.CreateAuditLog
          (repository.setStatus s root FlagStatus.disabled) root AuditAction.disable actor
          reason) b = some FlagStatus.enabled := by
        rw [hs2ne b hbne]
        exact hb_en
      have hmem : b ∈ repository.GetDependents (repository.CreateAuditLog
          (repository.setStatus s root FlagStatus.disabled) root AuditAction.disable actor
          reason) root := by
        rw [mem_getDependents, hedges2]
        exact hb
      have hne3 := cascadeLoop_processed true _ _ _ _ _ hcas b hmem
      have hsome3 : (statusOf s3 b).isSome :=
        statusOf_evolve_isSome hev23 (by rw [hb2]; rfl)
      exact statusOf_disabled_of_isSome_ne hsome3 hne3
    | @step b c hb hcb ih =>
      have hbne : b ≠ root := by
        intro h
        subst h
        exact hacyc hb
      have hcne : c ≠ root := by
        intro h
        subst h
        exact hacyc (DependsReach.step hb hcb)
      have hb2 : statusOf (repository.CreateAuditLog
          (repository.setStatus s root FlagStatus.disabled) root AuditAction.disable actor
          reason) b = some FlagStatus.enabled := by
        rw [hs2ne b hbne]
        exact hdeps b hb
      have hfresh := cascadeLoop_fresh_dependents true _ _ _ _ _ hcas b hb2 ih c
        (by rw [hedges2]; exact hcb)
      have hc2 : statusOf (repository.CreateAuditLog
          (repository.setStatus s root FlagStatus.disabled) root AuditAction.disable actor
          reason) c = some FlagStatus.enabled := by
        rw [hs2ne c hcne]
        exact hdeps c (DependsReach.step hb hcb)
      have hsome3 : (statusOf s3 c).isSome :=
        statusOf_evolve_isSome hev23 (by rw [hc2]; rfl)
      exact statusOf_disabled_of_isSome_ne hsome3 hfresh
  have hcnt3 := cascadeLoop_audit_count _ _ _ _ _ hcas
  refine ⟨s3, hrun, ?_, ?_, ?_, ?_⟩
  · intro v hv
    have hvne : v ≠ root := by
      intro h
      subst h
      exact hacyc hv
    have hv2 : statusOf (repository.CreateAuditLog
        (repository.setStatus s root FlagStatus.disabled) root AuditAction.disable actor
        reason) v = some FlagStatus.enabled := by
      rw [hs2ne v hvne]
      exact hdeps v hv
    refine ⟨hdep_dis v hv, ?_⟩
    rw [hcnt3 v, if_pos ⟨hv2, hdep_dis v hv⟩, hcnt2 v]
  · intro v hnr hvne
    have hunch : statusOf s3 v = statusOf (repository.CreateAuditLog
        (repository.setStatus s root FlagStatus.disabled) root AuditAction.disable actor
        reason) v := by
      by_cases hch : statusOf s3 v = statusOf (repository.CreateAuditLog
          (repository.setStatus s root FlagStatus.disabled) root AuditAction.disable actor
          reason) v
      · exact hch
      · obtain ⟨_, _, d, hd, hr⟩ := cascadeLoop_frame true _ _ _ _ _ hcas v hch
        rw [mem_getDependents, hedges2] at hd
        have hrootd : DependsReach s.edges root d := DependsReach.direct hd
        rcases hr with hr | hr
        · exact absurd (hr ▸ hrootd) hnr
        · rw [hedges2] at hr
          exact absurd (dependsReach_trans hrootd hr) hnr
    constructor
    · rw [hunch, hs2ne v hvne]
    · rw [hcnt3 v, hcnt2 v, if_neg]
      · omega
      · rintro ⟨h1, h2⟩
        rw [hunch] at h2
        rw [h1] at h2
        exact absurd (Option.some.inj h2) (by simp)
  · exact statusOf_evolve_disabled hev23 hs2root
  · rw [hcnt3 root, hcnt2 root, if_neg]
    · omega
    · rintro ⟨h1, _⟩
      rw [hs2root] at h1
      exact absurd (Option.some.inj h1) (by simp)


theorem getFlagByID_deterministic {s : Store} {d : Int} {f f' : Flag}
    (h : repository.GetFlagByID s d = some f) (h' : repository.GetFlagByID s d = some f') :
    f = f' := by
  rw [h] at h'
  exact Option.some.inj h'

theorem getMissing_eq (s : Store) :
    ∀ deps : List Int, (∀ d ∈ deps, ∃ f, repository.GetFlagByID s d = some f) →
      service.getMissingActiveDependencies s deps = Except.ok (missingNamesOf s deps) := by
  intro deps
  induction deps with
  | nil => intro _; rfl
  | cons d rest ih =>
    intro hex
    obtain ⟨f, hf⟩ := hex d (List.mem_cons_self _ _)
    have ih' := ih fun x hx => hex x (List.mem_cons_of_mem _ hx)
    unfold service.getMissingActiveDependencies missingNamesOf
    unfold missingNamesOf at ih'
    simp only [hf, List.filterMap_cons, ih']
    by_cases hst : f.status = FlagStatus.disabled <;> simp [hst]

theorem missingNamesOf_eq_nil_iff (s : Store) :
    ∀ deps : List Int, (∀ d ∈ deps, ∃ f, repository.GetFlagByID s d = some f) →
      (missingNamesOf s deps = [] ↔
        ∀ d ∈ deps, ∀ f, repository.GetFlagByID s d = some f →
          f.status = FlagStatus.enabled) := by
  intro deps
  induction deps with
  | nil => intro _; simp [missingNamesOf]
  | cons d rest ih =>
    intro hex
    obtain ⟨f, hf⟩ := hex d (List.mem_cons_self _ _)
    have ih' := ih fun x hx => hex x (List.mem_cons_of_mem _ hx)
    unfold missingNamesOf
    unfold missingNamesOf at ih'
    simp only [List.filterMap_cons, hf]
    by_cases hst : f.status = FlagStatus.disabled
    · simp only [hst, if_true]
      constructor
      · intro h
        exact absurd h (by simp)
      · intro h
        have := h d (List.mem_cons_self _ _) f hf
        rw [hst] at this
        exact absurd this (by simp)
    · simp only [hst, if_false]
      rw [ih']
      constructor
      · intro h x hx f' hf'
        rcases List.mem_cons.1 hx with hx | hx
        · rw [hx] at hf'
          rw [getFlagByID_deterministic hf' hf]
          cases hfs : f.status with
          | enabled => rfl
          | disabled => exact absurd hfs hst
        · exact h x hx f' hf'
      · intro h x hx f' hf'
        exact h x (List.mem_cons_of_mem _ hx) f' hf'


/-- C2 (amended): for a Disabled flag whose dependency rows all exist,
`EnableFlag` succeeds exactly when every direct dependency is Enabled;
on failure it returns the missing-dependency names and leaves the store
unchanged.  The name list is `missingNamesOf` over `GetDependencies`,
whose order is ascending dependency id (the store's
`ORDER BY depends_on_id`), not the dependency-declaration order the
original claim states. -/
theorem enable_missing_deps_ascending_id_order
    (s : Store) (fid : Int) (actor reason : String) (flag : Flag)
    (hid : validator.ValidateFlagID fid = none)
    (hact : validator.ValidateActor actor = none)
    (hfind : repository.GetFlagByID s fid = some flag)
    (hdis : flag.status = FlagStatus.disabled)
    (hex : ∀ d ∈ repository.GetDependencies s fid,
      ∃ f, repository.GetFlagByID s d = some f) :
    List.Pairwise (· ≤ ·) (repository.GetDependencies s fid) ∧
    (missingNamesOf s (repository.GetDependencies s fid) = [] ↔
      ∀ d ∈ repository.GetDependencies s fid, ∀ f, repository.GetFlagByID s d = some f →
        f.status = FlagStatus.enabled) ∧
    (missingNamesOf s (repository.GetDependencies s fid) = [] →
      (service.EnableFlag true s fid actor reason).result = Except.ok () ∧
        statusOf (service.EnableFlag true s fid actor reason).store fid =
          some FlagStatus.enabled) ∧
    (missingNamesOf s (repository.GetDependencies s fid) ≠ [] →
      service.EnableFlag true s fid actor reason =
        ⟨Except.error (ServiceError.missingActiveDependencies
          (missingNamesOf s (repository.GetDependencies s fid))), s⟩) := by
  refine ⟨List.sorted_insertionSort _ _, missingNamesOf_eq_nil_iff s _ hex, ?_, ?_⟩
  · intro hmiss
    unfold service.EnableFlag
    simp only [hid, hact, hfind]
    rw [if_neg (by rw [hdis]; simp)]
    by_cases hdeps : (repository.GetDependencies s fid).isEmpty
    · rw [if_pos hdeps]
      unfold service.enableCommit
      rw [updateFlagStatus_of_found FlagStatus.enabled hfind]
      refine ⟨rfl, ?_⟩
      simp only [reduceIte]
      rw [statusOf_createAuditLog]
      exact statusOf_setStatus_self hfind FlagStatus.enabled
    · rw [if_neg hdeps, getMissing_eq s _ hex, hmiss]
      simp only [List.isEmpty_nil, reduceIte]
      unfold service.enableCommit
      rw [updateFlagStatus_of_found FlagStatus.enabled hfind]
      refine ⟨rfl, ?_⟩
      simp only [reduceIte]
      rw [statusOf_createAuditLog]
      exact statusOf_setStatus_self hfind FlagStatus.enabled
  · intro hne
    have hdeps : (repository.GetDependencies s fid).isEmpty = false := by
      cases hd0 : repository.GetDependencies s fid with
      | nil =>
        rw [hd0] at hne
        exact absurd rfl hne
      | cons a t => simp
    have hmb : (missingNamesOf s (repository.GetDependencies s fid)).isEmpty = false := by
      cases h0 : missingNamesOf s (repository.GetDependencies s fid) with
      | nil => exact absurd h0 hne
      | cons a t => rfl
    unfold service.EnableFlag
    simp only [hid, hact, hfind]
    rw [if_neg (by rw [hdis]; simp)]
    rw [if_neg (by rw [hdeps]; simp), getMissing_eq s _ hex]
    dsimp only
    rw [hmb]
    simp


theorem cascadeStore_reach_cases :
    ∀ v, DependsReach cascadeStore.edges 1 v → v = 2 ∨ v = 3 := by
  intro v h
  induction h with
  | @direct b hb =>
    have hb' : (b, (1 : Int)) ∈ [((2 : Int), (1 : Int)), (3, 2)] := hb
    rcases List.mem_cons.1 hb' with h | h
    · exact Or.inl (congrArg Prod.fst h)
    · rcases List.mem_cons.1 h with h | h
      · have h2 : (1 : Int) = 2 := congrArg Prod.snd h
        exact absurd h2 (by decide)
      · exact absurd h (by simp)
  | @step b c hb hcb ih =>
    have hcb' : (c, b) ∈ [((2 : Int), (1 : Int)), (3, 2)] := hcb
    rcases List.mem_cons.1 hcb' with h | h
    · have hb1 : b = 1 := congrArg Prod.snd h
      rcases ih with hbv | hbv <;> rw [hb1] at hbv <;> exact absurd hbv (by decide)
    · rcases List.mem_cons.1 h with h | h
      · exact Or.inr (congrArg Prod.fst h)
      · exact absurd h (by simp)

theorem cascadeStore_deps_enabled :
    ∀ v, DependsReach cascadeStore.edges 1 v →
      statusOf cascadeStore v = some FlagStatus.enabled := by
  intro v h
  rcases cascadeStore_reach_cases v h with rfl | rfl <;> rfl

theorem cascadeStore_root_acyclic : ¬ DependsReach cascadeStore.edges 1 1 := by
  intro h
  rcases cascadeStore_reach_cases 1 h with h | h <;> exact absurd h (by decide)

/-- Witness for C3 on the chain auth <- checkout <- payment. -/
theorem disable_cascades_each_dependent_once_witness :
    ∃ s', service.DisableFlag true 3 cascadeStore 1 "u" "because" =
        some ⟨Except.ok (), s'⟩ ∧
      (∀ v, DependsReach cascadeStore.edges 1 v →
        statusOf s' v = some FlagStatus.disabled ∧
        cascadeAuditCount s'.audits v = cascadeAuditCount cascadeStore.audits v + 1) ∧
      (∀ v, ¬ DependsReach cascadeStore.edges 1 v → v ≠ 1 →
        statusOf s' v = statusOf cascadeStore v ∧
        cascadeAuditCount s'.audits v = cascadeAuditCount cascadeStore.audits v) ∧
      statusOf s' 1 = some FlagStatus.disabled ∧
      cascadeAuditCount s'.audits 1 = cascadeAuditCount cascadeStore.audits 1 :=
  disable_cascades_each_dependent_once 3 cascadeStore 1 "u" "because" ⟨1, "auth", FlagStatus.enabled⟩
    (by decide) (by decide) (by rfl) rfl cascadeStore_deps_enabled
    cascadeStore_root_acyclic (by decide)

/-- Witness for C6 on the cyclic two-flag store. -/
theorem cascade_terminates_and_skips_visited_witness :
    ∃ s', service.cascadeDisableDependents true 2 cyclicStore 1 = some s' ∧
      (∀ v, statusOf cyclicStore v = some FlagStatus.disabled →
        statusOf s' v = some FlagStatus.disabled ∧
          cascadeAuditCount s'.audits v = cascadeAuditCount cyclicStore.audits v) ∧
      (∀ v, cascadeAuditCount s'.audits v ≤ cascadeAuditCount cyclicStore.audits v + 1) :=
  cascade_terminates_and_skips_visited true 2 cyclicStore 1 (by decide)

/-- Witness for C7 with the audit write failing (`auditOk = false`). -/
theorem audit_write_failure_nonfatal_witness :
    ((service.EnableFlag false auditFailStore 2 "u" "go").result = Except.ok () ∧
      statusOf (service.EnableFlag false auditFailStore 2 "u" "go").store 2 =
        some FlagStatus.enabled) ∧
    (∃ res, service.DisableFlag false 1 auditFailStore 1 "u" "go" = some res ∧
      res.result = Except.ok () ∧
      statusOf res.store 1 = some FlagStatus.disabled) :=
  ⟨(audit_write_failure_nonfatal false 1 auditFailStore 2 "u" "go" ⟨2, "feat", FlagStatus.disabled⟩
      (by decide) (by decide) (by rfl)).1 rfl (by rfl),
   (audit_write_failure_nonfatal false 1 auditFailStore 1 "u" "go" ⟨1, "dep", FlagStatus.enabled⟩
      (by decide) (by decide) (by rfl)).2 rfl (by decide)⟩

/-- Witness for C10: a no-op disable of Disabled flag 1 keeps the
Disabled flag 2 Disabled. -/
theorem disable_never_enables_witness :
    statusOf (OpResult.store ⟨Except.ok (), monoStore⟩) 2 = some FlagStatus.disabled :=
  disable_never_enables true 0 monoStore 1 "u" "why" ⟨Except.ok (), monoStore⟩ (by rfl) 2 (by rfl)

/-- Witness for the amended C2 on the declaration-order store. -/
theorem enable_missing_deps_ascending_id_order_witness :
    List.Pairwise (· ≤ ·) (repository.GetDependencies orderStore 10) ∧
    (missingNamesOf orderStore (repository.GetDependencies orderStore 10) = [] ↔
      ∀ d ∈ repository.GetDependencies orderStore 10,
        ∀ f, repository.GetFlagByID orderStore d = some f →
          f.status = FlagStatus.enabled) ∧
    (missingNamesOf orderStore (repository.GetDependencies orderStore 10) = [] →
      (service.EnableFlag true orderStore 10 "u" "why").result = Except.ok () ∧
        statusOf (service.EnableFlag true orderStore 10 "u" "why").store 10 =
          some FlagStatus.enabled) ∧
    (missingNamesOf orderStore (repository.GetDependencies orderStore 10) ≠ [] →
      service.EnableFlag true orderStore 10 "u" "why" =
        ⟨Except.error (ServiceError.missingActiveDependencies
          (missingNamesOf orderStore (repository.GetDependencies orderStore 10))),
          orderStore⟩) :=
  enable_missing_deps_ascending_id_order orderStore 10 "u" "why" ⟨10, "main", FlagStatus.disabled⟩
    (by decide) (by decide) (by rfl) rfl
    (by
      intro d hd
      have hdl : repository.GetDependencies orderStore 10 = [3, 7] := by rfl
      rw [hdl] at hd
      have : d = 3 ∨ d = 7 := by simpa using hd
      rcases this with rfl | rfl
      · exact ⟨⟨3, "depA", FlagStatus.disabled⟩, by rfl⟩
      · exact ⟨⟨7, "depB", FlagStatus.disabled⟩, by rfl⟩)

end FeatureFlags
